import Mathlib

/-!
Cart store and path router of the storefront (`src/App.jsx`).

A shallow embedding of the `CartProvider` component (lines 8-53), of the
components `Router` and `Route` (lines 57-82), of the route table of `App`
(lines 703-720) and of the product lookup of `ProductPage` (lines 279-296) of
`src/App.jsx`, and theorems about them.

Modelling conventions.

* The React state `cartItems` is a JavaScript array of plain objects; it is a
  `List CartLineItem` here.  Every mutation is a state updater
  `setCartItems(prev => ...)`; it is embedded as a function of `prev`.
* The argument of `addToCart` is always `{ ...product, size: selectedSize }`
  (`handleAddToCart`, line 299), a catalogue record extended with a size: the
  structure `Product` has exactly these seven fields.  The line item built by
  `{ ...product, quantity: 1 }` has the same seven fields and `quantity`.
* JavaScript numbers are binary doubles.  `id` and `quantity` are integers
  (`Int`); integer arithmetic on doubles is exact below `2^53`, which is the
  range the development is about.  A `price` is the exact value of a finite
  double, a rational (`ℚ`); the literal `79.99` is `binary64 (7999 / 100)`,
  that is `5628795846771343 / 2^46`.
  An arithmetic operation on prices is the exact operation followed by
  `binary64`, the rounding to the nearest double, ties to even (53-bit
  significand, subnormals down to `2^-1074`).  Overflow to `Infinity`, from
  `2^1024` on, and `NaN` are outside the range of the development.
* `===` on numbers and strings is equality.
* JavaScript strings are `String`; `includes`, `startsWith` and `split` are
  defined on the character lists.  A component returns `Option (Element V)`,
  `none` for `null`.
* `parseInt` is the built-in of the language, embedded after its definition in
  ECMAScript, with `none` for `NaN` and the exact integer for a number.  No id
  of the catalogue is near the range where a double rounds, so the comparison
  `p.id === productId` is the same on the exact integer.
-/

namespace CartStore

/-- The object handed to `addToCart`: a catalogue record (`mockProducts`,
lines 91-98) spread together with the selected size (line 299). -/
structure Product where
  id : Int
  name : String
  price : ℚ
  category : String
  image : String
  description : String
  size : String
deriving DecidableEq

/-- One element of `cartItems`: the fields of the product it was built from
and a quantity. -/
structure CartLineItem where
  id : Int
  name : String
  price : ℚ
  category : String
  image : String
  description : String
  size : String
  quantity : Int
deriving DecidableEq

/-- The value of the state variable `cartItems` (line 9). -/
abbrev CartState := List CartLineItem

/-- The initial state `useState([])` (line 9). -/
def emptyCart : CartState := []

/-- The object literal `{ ...product, quantity: 1 }` (line 21). -/
def newLineItem (product : Product) : CartLineItem :=
  { id := product.id, name := product.name, price := product.price,
    category := product.category, image := product.image,
    description := product.description, size := product.size, quantity := 1 }

/-- The updater of `addToCart` (lines 12-22). -/
def addToCart (product : Product) (prev : CartState) : CartState :=
  match prev.find? (fun item => decide (item.id = product.id ∧ item.size = product.size)) with
  | some _ =>
    prev.map (fun item =>
      if item.id = product.id ∧ item.size = product.size
      then { item with quantity := item.quantity + 1 }
      else item)
  | none => prev ++ [newLineItem product]

/-- The updater of `removeFromCart` (line 26). -/
def removeFromCart (productId : Int) (size : String) (prev : CartState) : CartState :=
  prev.filter (fun item => !(decide (item.id = productId ∧ item.size = size)))

/-- The function `updateQuantity` (lines 29-41). -/
def updateQuantity (productId : Int) (size : String) (quantity : Int)
    (prev : CartState) : CartState :=
  if quantity = 0 then
    removeFromCart productId size prev
  else
    prev.map (fun item =>
      if item.id = productId ∧ item.size = size
      then { item with quantity := quantity }
      else item)

/-- The function `clearCart` (line 43): `setCartItems([])`. -/
def clearCart (_prev : CartState) : CartState := []

/-- The integer nearest to a rational, the even one of the two at a tie. -/
def roundHalfEven (y : ℚ) : ℤ :=
  if y - ⌊y⌋ < 1 / 2 then ⌊y⌋
  else if 1 / 2 < y - ⌊y⌋ then ⌊y⌋ + 1
  else if ⌊y⌋ % 2 = 0 then ⌊y⌋ else ⌊y⌋ + 1

/-- The exponent of the unit in the last place of the doubles around `x`:
52 below the exponent of `x`, and `-1074` at least. -/
def quantum (x : ℚ) : ℤ :=
  max (Int.log 2 |x| - 52) (-1074)

/-- The double nearest to a rational, ties to even: what a JavaScript
arithmetic operation returns for the exact result `x`. -/
def binary64 (x : ℚ) : ℚ :=
  if x = 0 then 0 else (roundHalfEven (x / 2 ^ quantum x) : ℚ) * 2 ^ quantum x

/-- The derived value `cartTotal` (line 45), a left fold from `0`; the product
and the sum are operations on doubles. -/
def cartTotal (cartItems : CartState) : ℚ :=
  cartItems.foldl
    (fun sum item => binary64 (sum + binary64 (item.price * (item.quantity : ℚ)))) 0

/-- No product and no partial sum of the fold of `cartTotal`, continued from
`acc`, is changed by the rounding. -/
def ExactTotal (acc : ℚ) : CartState → Prop
  | [] => True
  | item :: rest =>
    binary64 (item.price * (item.quantity : ℚ)) = item.price * (item.quantity : ℚ) ∧
    binary64 (acc + item.price * (item.quantity : ℚ))
      = acc + item.price * (item.quantity : ℚ) ∧
    ExactTotal (acc + item.price * (item.quantity : ℚ)) rest

instance decidableExactTotal : (acc : ℚ) → (S : CartState) → Decidable (ExactTotal acc S)
  | _, [] => isTrue trivial
  | acc, item :: rest =>
    have := decidableExactTotal (acc + item.price * (item.quantity : ℚ)) rest
    inferInstanceAs (Decidable (_ ∧ _ ∧ _))

/-- The derived value `cartCount` (line 46), a left fold from `0`. -/
def cartCount (cartItems : CartState) : Int :=
  cartItems.foldl (fun sum item => sum + item.quantity) 0

/-- The four mutations the context exposes (line 49), with their arguments. -/
inductive CartAction where
  | add (product : Product)
  | remove (productId : Int) (size : String)
  | update (productId : Int) (size : String) (quantity : Int)
  | clear
deriving DecidableEq

/-- One call of a mutation on the current state. -/
def step (S : CartState) : CartAction → CartState
  | .add product => addToCart product S
  | .remove productId size => removeFromCart productId size S
  | .update productId size quantity => updateQuantity productId size quantity S
  | .clear => clearCart S

/-- A finite sequence of calls, run in order from a state. -/
def run (S : CartState) (calls : List CartAction) : CartState :=
  calls.foldl step S

/-- At most one line item per `(id, size)` pair. -/
def UniqueKeys (S : CartState) : Prop :=
  S.Pairwise (fun a b => ¬ (a.id = b.id ∧ a.size = b.size))

instance (S : CartState) : Decidable (UniqueKeys S) := by
  unfold UniqueKeys; infer_instance

/-- A call whose quantity argument, if it has one, is not negative. -/
def NonNegCall : CartAction → Prop
  | .update _ _ quantity => 0 ≤ quantity
  | _ => True

instance (a : CartAction) : Decidable (NonNegCall a) := by
  cases a <;> unfold NonNegCall <;> infer_instance

/-- A catalogue record with a size, used in examples; the price is the double
of the literal `299.99` (`catalogue_prices`). -/
def jacketM : Product :=
  { id := 1, name := "Heated Jacket Pro", price := 1319369972866089 / 4398046511104,
    category := "jackets", image := "J", description := "Premium heated jacket with 3 heat settings", size := "M" }

/-- The same catalogue record in another size. -/
def jacketL : Product := { jacketM with size := "L" }

/-- Another catalogue record; the price is the double of the literal `79.99`. -/
def glovesM : Product :=
  { id := 2, name := "Thermal Gloves", price := 5628795846771343 / 70368744177664,
    category := "gloves", image := "G", description := "Battery-powered heated gloves", size := "M" }

end CartStore

namespace PathRouter

/-! ## The router (`src/App.jsx`, lines 57-82, 279-296, 703-720)

JavaScript strings are `String` here.  The string methods the router calls are
defined on the character lists. -/

/-- The method `s.includes(search)`: `search` occurs in `s` as a contiguous run. -/
def includes (s search : String) : Bool :=
  decide (search.data <:+: s.data)

/-- The method `s.startsWith(search)`. -/
def startsWith (s search : String) : Bool :=
  search.data.isPrefixOf s.data

/-- The segments of a character list cut at every occurrence of `sep`; the
result is never empty. -/
def splitChars (sep : Char) : List Char → List (List Char)
  | [] => [[]]
  | c :: cs =>
    if c = sep then [] :: splitChars sep cs
    else
      match splitChars sep cs with
      | [] => [[c]]
      | seg :: rest => (c :: seg) :: rest

/-- The method `s.split(sep)` for a one-character separator. -/
def split (s : String) (sep : Char) : List String :=
  (splitChars sep s.data).map String.mk

/-- What a component returns: a JSX element `<Component ... />` with the
`currentPath` prop it was given, if any.  `null` is `none` of
`Option (Element V)`. -/
structure Element (V : Type) where
  component : V
  currentPath : Option String
deriving DecidableEq

/-- The component `Route` (lines 74-82).  `path.split(':')[0]` is the first
element of an array that is never empty. -/
def Route {V : Type} (path : String) (component : V) (currentPath : String) :
    Option (Element V) :=
  if includes path ":id" = true then
    let basePath := (split path ':').headD ""
    if startsWith currentPath basePath = true then
      some { component := component, currentPath := some currentPath }
    else if currentPath = path then
      some { component := component, currentPath := none }
    else none
  else if currentPath = path then
    some { component := component, currentPath := none }
  else none

/-- The page components named in the route table. -/
inductive View where
  | HomePage
  | ShopPage
  | ProductPage
  | CartPage
  | CheckoutPage
  | AccountPage
deriving DecidableEq

/-- The `Route` children of `Router` in `App` (lines 711-716), in order. -/
def routes : List (String × View) :=
  [("/", View.HomePage), ("/shop", View.ShopPage), ("/product/:id", View.ProductPage),
   ("/cart", View.CartPage), ("/checkout", View.CheckoutPage),
   ("/account", View.AccountPage)]

/-- The component `Router` (lines 69-71): every child is rendered with the
current path. -/
def Router (children : List (String × View)) (currentPath : String) :
    List (Option (Element View)) :=
  children.map (fun child => Route child.1 child.2 currentPath)

/-- The router part of `App` (lines 710-717). -/
def App (currentPath : String) : List (Option (Element View)) :=
  Router routes currentPath

/-- A record of `mockProducts`. -/
structure CatalogueProduct where
  id : Int
  name : String
  price : ℚ
  category : String
  image : String
  description : String
deriving DecidableEq

/-- The table `mockProducts` (lines 91-98); each price is the double of its
literal, written as the rational it is (`catalogue_prices`). -/
def mockProducts : List CatalogueProduct :=
  [{ id := 1, name := "Heated Jacket Pro", price := 1319369972866089 / 4398046511104,
     category := "jackets",
     image := "ðŸ§¥", description := "Premium heated jacket with 3 heat settings" },
   { id := 2, name := "Thermal Gloves", price := 5628795846771343 / 70368744177664,
     category := "gloves",
     image := "ðŸ§¤", description := "Battery-powered heated gloves" },
   { id := 3, name := "Heated Vest", price := 835584856644649 / 4398046511104,
     category := "vests",
     image := "ðŸ¦º", description := "Lightweight heated vest for layering" },
   { id := 4, name := "Warm Socks", price := 7035467042882847 / 140737488355328,
     category := "socks",
     image := "ðŸ§¦", description := "Heated socks with wireless control" },
   { id := 5, name := "Heated Hoodie", price := 1099467647310889 / 4398046511104,
     category := "hoodies",
     image := "ðŸ‘”", description := "Casual heated hoodie for everyday wear" },
   { id := 6, name := "Winter Beanie", price := 8442841926436127 / 140737488355328,
     category := "accessories",
     image := "ðŸŽ©", description := "Heated beanie with rechargeable battery" }]

/-- The characters `parseInt` skips at the start of its argument: the white
space and line terminator code points of ECMAScript. -/
def isWhiteSpace (c : Char) : Bool :=
  decide (c.toNat ∈ [0x9, 0xA, 0xB, 0xC, 0xD, 0x20, 0xA0, 0x1680, 0x2000, 0x2001, 0x2002,
    0x2003, 0x2004, 0x2005, 0x2006, 0x2007, 0x2008, 0x2009, 0x200A, 0x2028, 0x2029,
    0x202F, 0x205F, 0x3000, 0xFEFF])

/-- The value of a character as a digit, letters standing for 10 to 35. -/
def digitValue (c : Char) : Option Nat :=
  if 48 ≤ c.toNat ∧ c.toNat ≤ 57 then some (c.toNat - 48)
  else if 97 ≤ c.toNat ∧ c.toNat ≤ 122 then some (c.toNat - 87)
  else if 65 ≤ c.toNat ∧ c.toNat ≤ 90 then some (c.toNat - 55)
  else none

/-- Whether a character is a digit of the radix. -/
def isRadixDigit (radix : Nat) (c : Char) : Bool :=
  match digitValue c with
  | some d => decide (d < radix)
  | none => false

/-- The built-in `parseInt(string)` called without a radix, after ECMAScript:
skip leading white space, take an optional sign, take radix 16 after a `0x` or
`0X` and radix 10 otherwise, read the longest run of digits of the radix; `NaN`
(`none`) when that run is empty.  The result is the exact integer. -/
def parseInt (string : String) : Option Int :=
  let s1 := string.data.dropWhile isWhiteSpace
  let sign : Int := if s1.head? = some '-' then -1 else 1
  let s2 := if s1.head? = some '+' ∨ s1.head? = some '-' then s1.tail else s1
  let hex : Bool := decide (s2.take 2 = ['0', 'x'] ∨ s2.take 2 = ['0', 'X'])
  let radix : Nat := if hex then 16 else 10
  let s3 := if hex then s2.drop 2 else s2
  let z := s3.takeWhile (isRadixDigit radix)
  if z = [] then none
  else some (sign * ((z.foldl (fun acc c => radix * acc + (digitValue c).getD 0) 0 : Nat) : Int))

/-- What `ProductPage` shows: the not-found message or the page of a product. -/
inductive ProductView where
  | notFound
  | product (p : CatalogueProduct)
deriving DecidableEq

/-- The component `ProductPage` (lines 280-296), up to the choice of branch.
`pop()` of an empty array is `undefined`, which `parseInt` reads as the string
`undefined`. -/
def ProductPage (currentPath : String) : ProductView :=
  let productId := parseInt (((split currentPath '/').getLast?).getD "undefined")
  match mockProducts.find? (fun p => decide (some p.id = productId)) with
  | some product => ProductView.product product
  | none => ProductView.notFound

end PathRouter

namespace CartStore

/-! ## Auxiliary facts -/

/-- Under key uniqueness two positions holding the same key are one position. -/
theorem UniqueKeys.index_eq {S : CartState} (hS : UniqueKeys S) {i j : Nat}
    (hi : i < S.length) (hj : j < S.length)
    (h : S[i].id = S[j].id ∧ S[i].size = S[j].size) : i = j := by
  have hp := List.pairwise_iff_getElem.mp hS
  rcases Nat.lt_trichotomy i j with hlt | heq | hgt
  · exact absurd h (hp i j hi hj hlt)
  · exact heq
  · exact absurd ⟨h.1.symm, h.2.symm⟩ (hp j i hj hi hgt)

/-- Under key uniqueness, rewriting every item with a given key rewrites one
position only. -/
theorem map_key_eq_set {S : CartState} (hS : UniqueKeys S) (productId : Int) (size : String)
    (f : CartLineItem → CartLineItem) {i : Nat} (hi : i < S.length)
    (hk : S[i].id = productId ∧ S[i].size = size) :
    S.map (fun item => if item.id = productId ∧ item.size = size then f item else item)
      = S.set i (f S[i]) := by
  apply List.ext_getElem (by simp)
  intro n h1 h2
  have hn : n < S.length := by simpa using h1
  rw [List.getElem_map, List.getElem_set]
  by_cases hin : i = n
  · subst hin
    simp [hk]
  · have hne : ¬ (S[n].id = productId ∧ S[n].size = size) := by
      intro hk2
      exact hin (hS.index_eq hi hn ⟨hk.1.trans hk2.1.symm, hk.2.trans hk2.2.symm⟩)
    simp [hin, hne]

/-- The branch of `addToCart` taken when some item has the key of the product. -/
theorem addToCart_of_present {p : Product} {S : CartState}
    (h : ∃ x ∈ S, x.id = p.id ∧ x.size = p.size) :
    addToCart p S = S.map (fun item =>
      if item.id = p.id ∧ item.size = p.size
      then { item with quantity := item.quantity + 1 }
      else item) := by
  unfold addToCart
  cases hf : S.find? (fun item => decide (item.id = p.id ∧ item.size = p.size)) with
  | some y => rfl
  | none =>
    obtain ⟨x, hx, hk⟩ := h
    have := List.find?_eq_none.mp hf x hx
    simp [hk] at this

/-- The branch of `addToCart` taken when no item has the key of the product. -/
theorem addToCart_of_absent {p : Product} {S : CartState}
    (h : ∀ x ∈ S, ¬ (x.id = p.id ∧ x.size = p.size)) :
    addToCart p S = S ++ [newLineItem p] := by
  unfold addToCart
  have hf : S.find? (fun item => decide (item.id = p.id ∧ item.size = p.size)) = none := by
    rw [List.find?_eq_none]
    intro x hx
    simpa using h x hx
  rw [hf]

/-- The key of every item survives a rewrite that only touches other fields. -/
theorem UniqueKeys.map_of_key_eq {S : CartState} (hS : UniqueKeys S)
    (g : CartLineItem → CartLineItem)
    (hg : ∀ x, (g x).id = x.id ∧ (g x).size = x.size) : UniqueKeys (S.map g) := by
  unfold UniqueKeys at hS ⊢
  refine hS.map g ?_
  intro a b hab h
  rw [(hg a).1, (hg a).2, (hg b).1, (hg b).2] at h
  exact hab h

/-- `addToCart` keeps keys unique. -/
theorem addToCart_uniqueKeys {S : CartState} (p : Product) (hS : UniqueKeys S) :
    UniqueKeys (addToCart p S) := by
  by_cases h : ∃ x ∈ S, x.id = p.id ∧ x.size = p.size
  · rw [addToCart_of_present h]
    refine hS.map_of_key_eq _ ?_
    intro x
    by_cases hx : x.id = p.id ∧ x.size = p.size <;> simp [hx]
  · have h2 : ∀ x ∈ S, ¬ (x.id = p.id ∧ x.size = p.size) := fun x hx hk => h ⟨x, hx, hk⟩
    rw [addToCart_of_absent h2]
    unfold UniqueKeys at hS ⊢
    rw [List.pairwise_append]
    refine ⟨hS, List.pairwise_singleton _ _, ?_⟩
    intro a ha b hb
    rw [List.mem_singleton] at hb
    subst hb
    exact h2 a ha

/-- `removeFromCart` keeps keys unique. -/
theorem removeFromCart_uniqueKeys {S : CartState} (productId : Int) (size : String)
    (hS : UniqueKeys S) : UniqueKeys (removeFromCart productId size S) := by
  unfold UniqueKeys at hS ⊢
  exact hS.filter _

/-- `updateQuantity` keeps keys unique, whatever the quantity. -/
theorem updateQuantity_uniqueKeys {S : CartState} (productId : Int) (size : String)
    (quantity : Int) (hS : UniqueKeys S) :
    UniqueKeys (updateQuantity productId size quantity S) := by
  unfold updateQuantity
  split
  · exact removeFromCart_uniqueKeys productId size hS
  · refine hS.map_of_key_eq _ ?_
    intro x
    by_cases hx : x.id = productId ∧ x.size = size <;> simp [hx]

/-- `clearCart` yields a cart with unique keys. -/
theorem clearCart_uniqueKeys (S : CartState) : UniqueKeys (clearCart S) :=
  List.Pairwise.nil

/-- Any call keeps keys unique. -/
theorem step_uniqueKeys {S : CartState} (a : CartAction) (hS : UniqueKeys S) :
    UniqueKeys (step S a) := by
  cases a with
  | add product => exact addToCart_uniqueKeys product hS
  | remove productId size => exact removeFromCart_uniqueKeys productId size hS
  | update productId size quantity => exact updateQuantity_uniqueKeys productId size quantity hS
  | clear => exact clearCart_uniqueKeys S

/-- Any sequence of calls keeps keys unique. -/
theorem run_uniqueKeys (calls : List CartAction) :
    ∀ {S : CartState}, UniqueKeys S → UniqueKeys (run S calls) := by
  induction calls with
  | nil => intro S hS; exact hS
  | cons a rest ih => intro S hS; exact ih (step_uniqueKeys a hS)

/-- A left fold that adds `f item` to the accumulator is the start value plus
the sum of the `f item`. -/
theorem foldl_add_eq_sum {β : Type} [AddCommMonoid β] (f : CartLineItem → β) (S : CartState) :
    ∀ a : β, S.foldl (fun sum item => sum + f item) a = a + (S.map f).sum := by
  induction S with
  | nil => intro a; simp
  | cons x rest ih => intro a; simp [ih, add_assoc]

/-- The count as a sum. -/
theorem cartCount_eq_sum (S : CartState) :
    cartCount S = (S.map (fun item => item.quantity)).sum := by
  unfold cartCount
  rw [foldl_add_eq_sum (fun item => item.quantity) S 0, zero_add]

/-- A rational nearer than one half to an integer rounds to that integer. -/
theorem roundHalfEven_of_near (y : ℚ) (m : ℤ) (h : |y - m| < 1 / 2) :
    roundHalfEven y = m := by
  have hfl := Int.floor_le y
  have hfl2 := Int.lt_floor_add_one y
  rw [abs_lt] at h
  unfold roundHalfEven
  by_cases h1 : y - ⌊y⌋ < 1 / 2
  · rw [if_pos h1]
    have c1 : (m : ℚ) < ⌊y⌋ + 1 := by linarith
    have c2 : (⌊y⌋ : ℚ) < m + 1 := by linarith
    have a : m < ⌊y⌋ + 1 := by exact_mod_cast c1
    have b : ⌊y⌋ < m + 1 := by exact_mod_cast c2
    omega
  · rw [if_neg h1]
    have h2 : 1 / 2 < y - ⌊y⌋ := by
      rcases lt_or_eq_of_le (not_lt.mp h1) with h3 | h3
      · exact h3
      · exfalso
        have c1 : (m : ℚ) < ⌊y⌋ + 1 := by linarith
        have c2 : (⌊y⌋ : ℚ) < m := by linarith
        have a : m < ⌊y⌋ + 1 := by exact_mod_cast c1
        have b : ⌊y⌋ < m := by exact_mod_cast c2
        omega
    rw [if_pos h2]
    have c1 : (m : ℚ) < ⌊y⌋ + 2 := by linarith
    have c2 : (⌊y⌋ : ℚ) < m := by linarith
    have a : m < ⌊y⌋ + 2 := by exact_mod_cast c1
    have b : ⌊y⌋ < m := by exact_mod_cast c2
    omega

/-- A rational half way between two integers rounds to the even one. -/
theorem roundHalfEven_of_tie (y : ℚ) (f : ℤ) (h : y = f + 1 / 2) :
    roundHalfEven y = if f % 2 = 0 then f else f + 1 := by
  have hf : ⌊y⌋ = f := by
    rw [Int.floor_eq_iff, h]
    constructor <;> linarith
  unfold roundHalfEven
  rw [hf]
  have e : y - (f : ℚ) = 1 / 2 := by rw [h]; ring
  rw [e, if_neg (lt_irrefl _), if_neg (lt_irrefl _)]

/-- The quantum of a positive rational between two consecutive powers of 2. -/
theorem quantum_of_bounds (x : ℚ) (E : ℤ) (hx : 0 < x)
    (hE1 : (2 : ℚ) ^ E ≤ x) (hE2 : x < (2 : ℚ) ^ (E + 1)) :
    quantum x = max (E - 52) (-1074) := by
  have hlog : Int.log 2 |x| = E := by
    rw [abs_of_pos hx]
    apply le_antisymm
    · have := (Int.lt_zpow_iff_log_lt (b := 2) (by norm_num) hx).mp hE2
      omega
    · exact (Int.zpow_le_iff_le_log (b := 2) (by norm_num) hx).mp hE1
  unfold quantum
  rw [hlog]

/-- The double nearest to a positive rational, from its exponent and the
multiple of the quantum nearer than half a quantum. -/
theorem binary64_of_near (x : ℚ) (E q m : ℤ) (hx : 0 < x)
    (hE1 : (2 : ℚ) ^ E ≤ x) (hE2 : x < (2 : ℚ) ^ (E + 1))
    (hq : q = max (E - 52) (-1074))
    (hm : |x / 2 ^ q - m| < 1 / 2) :
    binary64 x = m * 2 ^ q := by
  unfold binary64
  rw [if_neg (ne_of_gt hx), quantum_of_bounds x E hx hE1 hE2, ← hq,
    roundHalfEven_of_near _ m hm]

/-- The double nearest to a positive rational that is half way between two
multiples of the quantum. -/
theorem binary64_of_tie (x : ℚ) (E q f : ℤ) (hx : 0 < x)
    (hE1 : (2 : ℚ) ^ E ≤ x) (hE2 : x < (2 : ℚ) ^ (E + 1))
    (hq : q = max (E - 52) (-1074))
    (hf : x / 2 ^ q = f + 1 / 2) :
    binary64 x = ((if f % 2 = 0 then f else f + 1 : ℤ) : ℚ) * 2 ^ q := by
  unfold binary64
  rw [if_neg (ne_of_gt hx), quantum_of_bounds x E hx hE1 hE2, ← hq,
    roundHalfEven_of_tie _ f hf]

/-- An integer below `2^53` in absolute value is a double. -/
theorem binary64_intCast (n : ℤ) (hn : |n| < 2 ^ 53) : binary64 (n : ℚ) = n := by
  by_cases h0 : n = 0
  · subst h0; simp [binary64]
  have hx : (n : ℚ) ≠ 0 := by exact_mod_cast h0
  have habs : (0 : ℚ) < |(n : ℚ)| := abs_pos.mpr hx
  have hq : quantum (n : ℚ) ≤ 0 := by
    unfold quantum
    have hlt : |(n : ℚ)| < (2 : ℚ) ^ ((53 : ℤ)) := by
      have h1 : ((|n| : ℤ) : ℚ) < ((2 ^ 53 : ℤ) : ℚ) := by exact_mod_cast hn
      have h2 : (2 : ℚ) ^ (53 : ℤ) = ((2 ^ 53 : ℤ) : ℚ) := by norm_num
      rw [h2, ← Int.cast_abs]
      exact h1
    have := (Int.lt_zpow_iff_log_lt (b := 2) (by norm_num) habs).mp hlt
    omega
  unfold binary64
  rw [if_neg hx]
  obtain ⟨k, hk⟩ : ∃ k : ℕ, quantum (n : ℚ) = -(k : ℤ) :=
    ⟨(-quantum (n : ℚ)).toNat, by omega⟩
  rw [hk]
  have e : (n : ℚ) / 2 ^ (-(k : ℤ)) = ((n * 2 ^ k : ℤ) : ℚ) := by
    rw [zpow_neg, zpow_natCast]
    push_cast
    field_simp
  rw [e, roundHalfEven_of_near _ (n * 2 ^ k) (by simp)]
  rw [zpow_neg, zpow_natCast]
  push_cast
  field_simp

/-- The doubles of the six price literals of the catalogue. -/
theorem catalogue_prices :
    binary64 (29999 / 100) = 1319369972866089 / 4398046511104 ∧
    binary64 (7999 / 100) = 5628795846771343 / 70368744177664 ∧
    binary64 (18999 / 100) = 835584856644649 / 4398046511104 ∧
    binary64 (4999 / 100) = 7035467042882847 / 140737488355328 ∧
    binary64 (24999 / 100) = 1099467647310889 / 4398046511104 ∧
    binary64 (5999 / 100) = 8442841926436127 / 140737488355328 := by
  refine ⟨?_, ?_, ?_, ?_, ?_, ?_⟩
  · rw [binary64_of_near _ 8 (-44) 5277479891464356 (by norm_num) (by norm_num)
      (by norm_num) (by decide) (by norm_num [abs_lt])]
    norm_num
  · rw [binary64_of_near _ 6 (-46) 5628795846771343 (by norm_num) (by norm_num)
      (by norm_num) (by decide) (by norm_num [abs_lt])]
    norm_num
  · rw [binary64_of_near _ 7 (-45) 6684678853157192 (by norm_num) (by norm_num)
      (by norm_num) (by decide) (by norm_num [abs_lt])]
    norm_num
  · rw [binary64_of_near _ 5 (-47) 7035467042882847 (by norm_num) (by norm_num)
      (by norm_num) (by decide) (by norm_num [abs_lt])]
    norm_num
  · rw [binary64_of_near _ 7 (-45) 8795741178487112 (by norm_num) (by norm_num)
      (by norm_num) (by decide) (by norm_num [abs_lt])]
    norm_num
  · rw [binary64_of_near _ 5 (-47) 8442841926436127 (by norm_num) (by norm_num)
      (by norm_num) (by decide) (by norm_num [abs_lt])]
    norm_num

/-- The total after one more item at the end: one product and one sum, both
rounded. -/
theorem cartTotal_append_singleton (S : CartState) (x : CartLineItem) :
    cartTotal (S ++ [x])
      = binary64 (cartTotal S + binary64 (x.price * (x.quantity : ℚ))) := by
  unfold cartTotal
  rw [List.foldl_append]
  rfl

/-- Where no product and no partial sum is rounded, the fold of `cartTotal` is
the start value plus the sum of the products. -/
theorem foldl_total_of_exact (S : CartState) :
    ∀ acc : ℚ, ExactTotal acc S →
      S.foldl (fun sum item => binary64 (sum + binary64 (item.price * (item.quantity : ℚ)))) acc
        = acc + (S.map (fun item => item.price * (item.quantity : ℚ))).sum := by
  induction S with
  | nil => intro acc _; simp
  | cons x rest ih =>
    intro acc h
    obtain ⟨h1, h2, h3⟩ := h
    rw [List.foldl_cons, h1, h2, ih _ h3, List.map_cons, List.sum_cons, add_assoc]

/-- Where no product and no partial sum is rounded, the total is the sum. -/
theorem cartTotal_eq_sum_of_exact (S : CartState) (h : ExactTotal 0 S) :
    cartTotal S = (S.map (fun item => item.price * (item.quantity : ℚ))).sum := by
  unfold cartTotal
  rw [foldl_total_of_exact S 0 h, zero_add]

/-- With whole-number prices and products that add up to less than `2^53` in
absolute value, no product and no partial sum is rounded. -/
theorem exactTotal_of_int (S : CartState) :
    ∀ acc : ℤ, (∀ x ∈ S, ∃ n : ℤ, x.price = n) →
      |(acc : ℚ)| + (S.map (fun item => |item.price * (item.quantity : ℚ)|)).sum < 2 ^ 53 →
      ExactTotal (acc : ℚ) S := by
  induction S with
  | nil => intro acc _ _; trivial
  | cons x rest ih =>
    intro acc hp hb
    obtain ⟨n, hn⟩ := hp x (List.mem_cons_self x rest)
    rw [List.map_cons, List.sum_cons] at hb
    have hrest : 0 ≤ (rest.map (fun item => |item.price * (item.quantity : ℚ)|)).sum :=
      List.sum_nonneg (by
        intro y hy
        obtain ⟨z, _, rfl⟩ := List.mem_map.mp hy
        exact abs_nonneg _)
    have hacc : 0 ≤ |(acc : ℚ)| := abs_nonneg _
    have e1 : x.price * (x.quantity : ℚ) = ((n * x.quantity : ℤ) : ℚ) := by
      rw [hn]; push_cast; rfl
    have e2 : (acc : ℚ) + x.price * (x.quantity : ℚ) = ((acc + n * x.quantity : ℤ) : ℚ) := by
      rw [hn]; push_cast; rfl
    have b1 : |(n * x.quantity : ℤ)| < 2 ^ 53 := by
      have : |((n * x.quantity : ℤ) : ℚ)| < 2 ^ 53 := by
        rw [← e1]; linarith
      exact_mod_cast this
    have b2 : |(acc + n * x.quantity : ℤ)| < 2 ^ 53 := by
      have : |((acc + n * x.quantity : ℤ) : ℚ)| < 2 ^ 53 := by
        rw [← e2]
        have := abs_add (acc : ℚ) (x.price * (x.quantity : ℚ))
        linarith
      exact_mod_cast this
    refine ⟨?_, ?_, ?_⟩
    · rw [e1]; exact binary64_intCast _ b1
    · rw [e2]; exact binary64_intCast _ b2
    · rw [e2]
      apply ih (acc + n * x.quantity) (fun y hy => hp y (List.mem_cons_of_mem x hy))
      rw [← e2]
      have := abs_add (acc : ℚ) (x.price * (x.quantity : ℚ))
      linarith


/-- The same, for the whole fold of `cartTotal`. -/
theorem exactTotal_zero_of_int (S : CartState) (hp : ∀ x ∈ S, ∃ n : ℤ, x.price = n)
    (hb : (S.map (fun item => |item.price * (item.quantity : ℚ)|)).sum < 2 ^ 53) :
    ExactTotal 0 S := by
  have h := exactTotal_of_int S 0 hp (by simpa using hb)
  simpa using h

/-- Three times the price of the gloves is half way between two doubles and
rounds to the even one, `239.96999999999997`. -/
theorem binary64_gloves_times_3 :
    binary64 (5628795846771343 / 70368744177664 * 3) = 4221596885078507 / 17592186044416 := by
  rw [binary64_of_tie _ 7 (-45) 8443193770157014 (by norm_num) (by norm_num) (by norm_num)
    (by decide) (by norm_num)]
  norm_num

/-- Five times the price of the gloves rounds to the double `399.95`. -/
theorem binary64_gloves_times_5 :
    binary64 (5628795846771343 / 70368744177664 * 5) = 7035994808464179 / 17592186044416 := by
  rw [binary64_of_near _ 8 (-44) 7035994808464179 (by norm_num) (by norm_num) (by norm_num)
    (by decide) (by norm_num [abs_lt])]
  norm_num

/-- Six times the price of the gloves is half way between two doubles and
rounds to the even one, `479.93999999999994`. -/
theorem binary64_gloves_times_6 :
    binary64 (5628795846771343 / 70368744177664 * 6) = 4221596885078507 / 8796093022208 := by
  rw [binary64_of_tie _ 8 (-44) 8443193770157014 (by norm_num) (by norm_num) (by norm_num)
    (by decide) (by norm_num)]
  norm_num

/-- The three totals above are doubles: adding them to `0` rounds nothing. -/
theorem binary64_zero_add_gloves :
    binary64 (0 + 4221596885078507 / 17592186044416) = 4221596885078507 / 17592186044416 ∧
    binary64 (0 + 7035994808464179 / 17592186044416) = 7035994808464179 / 17592186044416 ∧
    binary64 (0 + 4221596885078507 / 8796093022208) = 4221596885078507 / 8796093022208 := by
  refine ⟨?_, ?_, ?_⟩
  · rw [binary64_of_near _ 7 (-45) 8443193770157014 (by norm_num) (by norm_num)
      (by norm_num) (by decide) (by norm_num [abs_lt])]
    norm_num
  · rw [binary64_of_near _ 8 (-44) 7035994808464179 (by norm_num) (by norm_num)
      (by norm_num) (by decide) (by norm_num [abs_lt])]
    norm_num
  · rw [binary64_of_near _ 8 (-44) 8443193770157014 (by norm_num) (by norm_num)
      (by norm_num) (by decide) (by norm_num [abs_lt])]
    norm_num

/-- The total of a cart that holds the gloves alone, 3, 5 or 6 of them. -/
theorem cartTotal_gloves :
    cartTotal [{ newLineItem glovesM with quantity := 3 }]
      = 4221596885078507 / 17592186044416 ∧
    cartTotal [{ newLineItem glovesM with quantity := 5 }]
      = 7035994808464179 / 17592186044416 ∧
    cartTotal [{ newLineItem glovesM with quantity := 6 }]
      = 4221596885078507 / 8796093022208 := by
  have t0 : cartTotal [] = 0 := rfl
  have p3 : ({ newLineItem glovesM with quantity := 3 } : CartLineItem).price
      = 5628795846771343 / 70368744177664 := rfl
  have p5 : ({ newLineItem glovesM with quantity := 5 } : CartLineItem).price
      = 5628795846771343 / 70368744177664 := rfl
  have p6 : ({ newLineItem glovesM with quantity := 6 } : CartLineItem).price
      = 5628795846771343 / 70368744177664 := rfl
  have q3 : ((({ newLineItem glovesM with quantity := 3 } : CartLineItem).quantity : ℤ) : ℚ)
      = 3 := by norm_num
  have q5 : ((({ newLineItem glovesM with quantity := 5 } : CartLineItem).quantity : ℤ) : ℚ)
      = 5 := by norm_num
  have q6 : ((({ newLineItem glovesM with quantity := 6 } : CartLineItem).quantity : ℤ) : ℚ)
      = 6 := by norm_num
  have e3 := cartTotal_append_singleton [] { newLineItem glovesM with quantity := 3 }
  have e5 := cartTotal_append_singleton [] { newLineItem glovesM with quantity := 5 }
  have e6 := cartTotal_append_singleton [] { newLineItem glovesM with quantity := 6 }
  rw [List.nil_append, t0, p3, q3, binary64_gloves_times_3, binary64_zero_add_gloves.1] at e3
  rw [List.nil_append, t0, p5, q5, binary64_gloves_times_5, binary64_zero_add_gloves.2.1] at e5
  rw [List.nil_append, t0, p6, q6, binary64_gloves_times_6, binary64_zero_add_gloves.2.2] at e6
  exact ⟨e3, e5, e6⟩

/-- Removing a key from the cart obtained by rewriting the quantity of that
key is removing it from the original cart. -/
theorem removeFromCart_map_quantity (productId : Int) (size : String) (quantity : Int)
    (S : CartState) :
    removeFromCart productId size
        (S.map (fun item =>
          if item.id = productId ∧ item.size = size
          then { item with quantity := quantity }
          else item))
      = removeFromCart productId size S := by
  induction S with
  | nil => rfl
  | cons x rest ih =>
    unfold removeFromCart at ih ⊢
    by_cases hx : x.id = productId ∧ x.size = size
    · have hp : ¬ ((!(decide (x.id = productId ∧ x.size = size))) = true) := by
        simp [hx.1, hx.2]
      rw [List.map_cons, if_pos hx, List.filter_cons, List.filter_cons, if_neg hp,
        if_neg (by simp [hx.1, hx.2]), ih]
    · have hp : (!(decide (x.id = productId ∧ x.size = size))) = true := by
        rw [Bool.not_eq_true', decide_eq_false_iff_not]; exact hx
      rw [List.map_cons, if_neg hx, List.filter_cons, List.filter_cons, if_pos hp,
        if_pos hp, ih]

/-- No item of the cart left by `removeFromCart` has the removed key. -/
theorem not_key_of_mem_removeFromCart {productId : Int} {size : String} {S : CartState}
    {y : CartLineItem} (hy : y ∈ removeFromCart productId size S) :
    ¬ (y.id = productId ∧ y.size = size) := by
  unfold removeFromCart at hy
  have hp := (List.mem_filter.mp hy).2
  rw [Bool.not_eq_true', decide_eq_false_iff_not] at hp
  exact hp

/-- On a cart without the key, `removeFromCart` changes nothing. -/
theorem removeFromCart_of_absent {productId : Int} {size : String} {S : CartState}
    (h : ∀ x ∈ S, ¬ (x.id = productId ∧ x.size = size)) :
    removeFromCart productId size S = S := by
  unfold removeFromCart
  rw [List.filter_eq_self]
  intro a ha
  rw [Bool.not_eq_true', decide_eq_false_iff_not]
  exact h a ha

/-- On a cart without the key, a rewrite of the items with that key changes
nothing. -/
theorem map_key_of_absent {productId : Int} {size : String} {S : CartState}
    (f : CartLineItem → CartLineItem)
    (h : ∀ x ∈ S, ¬ (x.id = productId ∧ x.size = size)) :
    S.map (fun item => if item.id = productId ∧ item.size = size then f item else item)
      = S := by
  induction S with
  | nil => rfl
  | cons x rest ih =>
    have hx := h x (List.mem_cons_self x rest)
    rw [List.map_cons, if_neg hx, ih (fun y hy => h y (List.mem_cons_of_mem x hy))]

/-- A call with a non-negative quantity argument keeps all quantities at least 1. -/
theorem step_quantity_pos {S : CartState} (a : CartAction) (ha : NonNegCall a)
    (hS : ∀ x ∈ S, 1 ≤ x.quantity) : ∀ x ∈ step S a, 1 ≤ x.quantity := by
  intro x hx
  cases a with
  | add product =>
    simp only [step] at hx
    by_cases h : ∃ y ∈ S, y.id = product.id ∧ y.size = product.size
    · rw [addToCart_of_present h, List.mem_map] at hx
      obtain ⟨y, hy, hxy⟩ := hx
      have h1 := hS y hy
      by_cases hk : y.id = product.id ∧ y.size = product.size
      · rw [if_pos hk] at hxy
        subst hxy
        show 1 ≤ y.quantity + 1
        omega
      · rw [if_neg hk] at hxy
        subst hxy
        exact h1
    · have h2 : ∀ y ∈ S, ¬ (y.id = product.id ∧ y.size = product.size) :=
        fun y hy hk => h ⟨y, hy, hk⟩
      rw [addToCart_of_absent h2, List.mem_append, List.mem_singleton] at hx
      rcases hx with hx | hx
      · exact hS x hx
      · subst hx
        exact le_refl _
  | remove productId size =>
    simp only [step, removeFromCart] at hx
    exact hS x (List.mem_filter.mp hx).1
  | update productId size quantity =>
    simp only [step, updateQuantity] at hx
    have hq : 0 ≤ quantity := ha
    by_cases h0 : quantity = 0
    · rw [if_pos h0] at hx
      unfold removeFromCart at hx
      exact hS x (List.mem_filter.mp hx).1
    · rw [if_neg h0, List.mem_map] at hx
      obtain ⟨y, hy, hxy⟩ := hx
      by_cases hk : y.id = productId ∧ y.size = size
      · rw [if_pos hk] at hxy
        subst hxy
        show 1 ≤ quantity
        omega
      · rw [if_neg hk] at hxy
        subst hxy
        exact hS y hy
  | clear =>
    simp [step, clearCart] at hx

/-- A sequence of calls with non-negative quantity arguments keeps all
quantities at least 1. -/
theorem run_quantity_pos (calls : List CartAction) :
    ∀ {S : CartState}, (∀ a ∈ calls, NonNegCall a) → (∀ x ∈ S, 1 ≤ x.quantity) →
      ∀ x ∈ run S calls, 1 ≤ x.quantity := by
  induction calls with
  | nil => intro S _ hS; exact hS
  | cons a rest ih =>
    intro S hc hS
    exact ih (fun b hb => hc b (List.mem_cons_of_mem a hb))
      (step_quantity_pos a (hc a (List.mem_cons_self a rest)) hS)

/-! ## Adding to the cart -/

/-- C1: on a cart with unique `(id, size)` keys, `addToCart p` either bumps by one
the quantity of the item with the key of `p`, leaving all its other fields, all
other items, the length and the order as they were, or, when no item has that
key, appends one item with the fields of `p` and quantity 1.  The key is the
pair: two adds of id 1 size M and one of id 1 size L give the two items
(1, M, 2), (1, L, 1) in that order. -/
theorem addToCart_merges_or_appends (S : CartState) (p : Product) (hS : UniqueKeys S) :
    (∀ (i : Nat) (hi : i < S.length), S[i].id = p.id ∧ S[i].size = p.size →
        addToCart p S
          = S.set i { id := S[i].id, name := S[i].name, price := S[i].price,
                      category := S[i].category, image := S[i].image,
                      description := S[i].description, size := S[i].size,
                      quantity := S[i].quantity + 1 }) ∧
    ((∀ x ∈ S, ¬ (x.id = p.id ∧ x.size = p.size)) →
        addToCart p S
          = S ++ [{ id := p.id, name := p.name, price := p.price,
                    category := p.category, image := p.image,
                    description := p.description, size := p.size, quantity := 1 }]) ∧
    (∀ pM pL : Product, pM.id = 1 → pM.size = "M" → pL.id = 1 → pL.size = "L" →
        addToCart pL (addToCart pM (addToCart pM emptyCart))
          = [{ id := 1, name := pM.name, price := pM.price, category := pM.category,
               image := pM.image, description := pM.description, size := "M",
               quantity := 2 },
             { id := 1, name := pL.name, price := pL.price, category := pL.category,
               image := pL.image, description := pL.description, size := "L",
               quantity := 1 }]) := by
  refine ⟨?_, ?_, ?_⟩
  · intro i hi hk
    rw [addToCart_of_present ⟨S[i], List.getElem_mem hi, hk⟩]
    exact map_key_eq_set hS p.id p.size
      (fun item => { item with quantity := item.quantity + 1 }) hi hk
  · intro h
    rw [addToCart_of_absent h]
    rfl
  · intro pM pL h1 h2 h3 h4
    simp [addToCart, emptyCart, newLineItem, h1, h2, h3, h4]

/-- The first case of C1 at a concrete cart: a second add of the same jacket in
size M bumps the only item to quantity 2 and keeps its name and price. -/
theorem addToCart_merges_or_appends_witness :
    UniqueKeys [newLineItem jacketM] ∧
    addToCart { jacketM with name := "Renamed", price := 1 } [newLineItem jacketM]
      = [{ newLineItem jacketM with quantity := 2 }] :=
  ⟨by decide,
   (addToCart_merges_or_appends [newLineItem jacketM]
      { jacketM with name := "Renamed", price := 1 } (by decide)).1 0 (by decide)
      ⟨rfl, rfl⟩⟩

/-! ## The key invariant -/

/-- C2: every cart reached from the empty cart by any finite sequence of
`addToCart`, `removeFromCart`, `updateQuantity` (any integer quantity) and
`clearCart` calls has at most one item per `(id, size)`; and each of the four
operations preserves that predicate. -/
theorem uniqueKeys_invariant :
    (∀ calls : List CartAction, UniqueKeys (run emptyCart calls)) ∧
    (∀ S : CartState, UniqueKeys S →
      (∀ p : Product, UniqueKeys (addToCart p S)) ∧
      (∀ (productId : Int) (size : String), UniqueKeys (removeFromCart productId size S)) ∧
      (∀ (productId : Int) (size : String) (quantity : Int),
        UniqueKeys (updateQuantity productId size quantity S)) ∧
      UniqueKeys (clearCart S)) := by
  refine ⟨fun calls => run_uniqueKeys calls List.Pairwise.nil, ?_⟩
  intro S hS
  exact ⟨fun p => addToCart_uniqueKeys p hS,
    fun productId size => removeFromCart_uniqueKeys productId size hS,
    fun productId size quantity => updateQuantity_uniqueKeys productId size quantity hS,
    clearCart_uniqueKeys S⟩

/-- C3: for `n ≥ 1`, `n` adds of the same product with a size, from the empty
cart, give exactly one line item; it has the fields of the product, in
particular its id and size, and quantity `n`. -/
theorem addToCart_iterate (n : Nat) (p : Product) (hn : 1 ≤ n) :
    (addToCart p)^[n] emptyCart
      = [{ id := p.id, name := p.name, price := p.price, category := p.category,
           image := p.image, description := p.description, size := p.size,
           quantity := (n : Int) }] := by
  induction n, hn using Nat.le_induction with
  | base => simp [addToCart, emptyCart, newLineItem]
  | succ m hm ih =>
    rw [Function.iterate_succ_apply', ih]
    simp [addToCart]

/-- C3 at `n = 3`: three adds of the jacket in size M give one item of
quantity 3. -/
theorem addToCart_iterate_witness :
    (1 ≤ 3) ∧
    addToCart jacketM (addToCart jacketM (addToCart jacketM emptyCart))
      = [{ newLineItem jacketM with quantity := 3 }] :=
  ⟨by decide, addToCart_iterate 3 jacketM (by decide)⟩

/-! ## Derived totals -/

/-- C4, the claim as stated, fails on the cart of three Thermal Gloves at
`79.99`, a cart three adds build: `cartTotal` is the double
`239.96999999999997`, the sum over the items of price times quantity is three
times the stored price, and the two differ (neither is `239.97`). -/
theorem cartTotal_counterexample :
    cartTotal [{ newLineItem glovesM with quantity := 3 }]
      = 4221596885078507 / 17592186044416 ∧
    ([{ newLineItem glovesM with quantity := 3 }].map
        (fun item => item.price * (item.quantity : ℚ))).sum
      = 16886387540314029 / 70368744177664 ∧
    cartTotal [{ newLineItem glovesM with quantity := 3 }]
      ≠ ([{ newLineItem glovesM with quantity := 3 }].map
          (fun item => item.price * (item.quantity : ℚ))).sum ∧
    cartTotal [{ newLineItem glovesM with quantity := 3 }] ≠ 23997 / 100 := by
  have hp : glovesM.price = 5628795846771343 / 70368744177664 := rfl
  have hsum : ([{ newLineItem glovesM with quantity := 3 }].map
        (fun item => item.price * (item.quantity : ℚ))).sum
      = glovesM.price * ((3 : ℤ) : ℚ) + 0 := rfl
  rw [cartTotal_gloves.1, hsum, hp]
  norm_num

/-- C4, amended: `cartCount` is the sum over the items of quantity; `cartTotal`
is the sum of price times quantity taken left to right in double arithmetic:
0 on the empty cart and, after one more item, the rounded sum of the total so
far and the rounded product.  It is the exact sum whenever no product and no
partial sum is rounded, as with whole-number prices and totals below `2^53`.
Both depend on the item list only, so this holds of the list any of the four
mutations produces. -/
theorem totals_are_sums :
    (∀ S : CartState, cartCount S = (S.map (fun item => item.quantity)).sum) ∧
    (∀ (S : CartState) (x : CartLineItem),
      cartTotal (S ++ [x])
        = binary64 (cartTotal S + binary64 (x.price * (x.quantity : ℚ)))) ∧
    (∀ S : CartState, ExactTotal 0 S →
      cartTotal S = (S.map (fun item => item.price * (item.quantity : ℚ))).sum) ∧
    (∀ S : CartState, (∀ x ∈ S, ∃ n : ℤ, x.price = n) →
      (S.map (fun item => |item.price * (item.quantity : ℚ)|)).sum < 2 ^ 53 →
      cartTotal S = (S.map (fun item => item.price * (item.quantity : ℚ))).sum) ∧
    (∀ (S : CartState) (a : CartAction),
      cartCount (step S a) = ((step S a).map (fun item => item.quantity)).sum ∧
      (ExactTotal 0 (step S a) →
        cartTotal (step S a)
          = ((step S a).map (fun item => item.price * (item.quantity : ℚ))).sum)) ∧
    cartTotal emptyCart = 0 ∧ cartCount emptyCart = 0 := by
  refine ⟨cartCount_eq_sum, cartTotal_append_singleton, cartTotal_eq_sum_of_exact,
    fun S hp hb => cartTotal_eq_sum_of_exact S (exactTotal_zero_of_int S hp hb),
    fun S a => ⟨cartCount_eq_sum _, cartTotal_eq_sum_of_exact _⟩, rfl, rfl⟩

/-! ## Removing and updating -/

/-- C5: `updateQuantity id size 0` yields exactly the cart `removeFromCart id
size` yields; and for an item `x` of the cart, setting its quantity to 5 and
then to 0 leaves the other items, as they were: `x` is not in the result, no
item has the key of `x`, and `cartCount` is the sum of the quantities of the
remaining items. -/
theorem updateQuantity_zero_is_remove :
    (∀ (S : CartState) (productId : Int) (size : String),
      updateQuantity productId size 0 S = removeFromCart productId size S) ∧
    (∀ (S : CartState) (x : CartLineItem), x ∈ S →
      x ∉ updateQuantity x.id x.size 0 (updateQuantity x.id x.size 5 S) ∧
      (∀ y ∈ updateQuantity x.id x.size 0 (updateQuantity x.id x.size 5 S),
        ¬ (y.id = x.id ∧ y.size = x.size)) ∧
      updateQuantity x.id x.size 0 (updateQuantity x.id x.size 5 S)
        = S.filter (fun item => !(decide (item.id = x.id ∧ item.size = x.size))) ∧
      cartCount (updateQuantity x.id x.size 0 (updateQuantity x.id x.size 5 S))
        = ((S.filter (fun item => !(decide (item.id = x.id ∧ item.size = x.size)))).map
            (fun item => item.quantity)).sum) := by
  refine ⟨fun S productId size => rfl, ?_⟩
  intro S x _
  have hEq : updateQuantity x.id x.size 0 (updateQuantity x.id x.size 5 S)
      = removeFromCart x.id x.size S := by
    show removeFromCart x.id x.size (updateQuantity x.id x.size 5 S) = _
    exact removeFromCart_map_quantity x.id x.size 5 S
  rw [hEq]
  refine ⟨?_, ?_, rfl, ?_⟩
  · intro hmem
    exact not_key_of_mem_removeFromCart hmem ⟨rfl, rfl⟩
  · intro y hy
    exact not_key_of_mem_removeFromCart hy
  · exact cartCount_eq_sum _

/-- C6: when no item of the cart has the id and the size at once,
`removeFromCart` returns the cart unchanged and so does `updateQuantity` for
every integer quantity, zero, positive or negative; both are total. -/
theorem absent_key_is_noop (S : CartState) (productId : Int) (size : String)
    (h : ∀ x ∈ S, ¬ (x.id = productId ∧ x.size = size)) :
    removeFromCart productId size S = S ∧
    ∀ quantity : Int, updateQuantity productId size quantity S = S := by
  refine ⟨removeFromCart_of_absent h, ?_⟩
  intro quantity
  unfold updateQuantity
  split
  · exact removeFromCart_of_absent h
  · exact map_key_of_absent _ h

/-- C6 on a cart holding the jacket in M (same id, other size) and the gloves
in L (same size, other id): remove and update of the jacket in L change
nothing. -/
theorem absent_key_is_noop_witness :
    (∀ x ∈ [newLineItem jacketM, newLineItem { glovesM with size := "L" }],
      ¬ (x.id = 1 ∧ x.size = "L")) ∧
    removeFromCart 1 "L" [newLineItem jacketM, newLineItem { glovesM with size := "L" }]
      = [newLineItem jacketM, newLineItem { glovesM with size := "L" }] ∧
    ∀ quantity : Int,
      updateQuantity 1 "L" quantity
          [newLineItem jacketM, newLineItem { glovesM with size := "L" }]
        = [newLineItem jacketM, newLineItem { glovesM with size := "L" }] :=
  ⟨by decide,
   absent_key_is_noop [newLineItem jacketM, newLineItem { glovesM with size := "L" }]
     1 "L" (by decide)⟩

/-- C7: for a non-zero quantity `q`, negative ones included, `updateQuantity id
size q` returns a cart of the same length in which, position by position, an
item with the key `(id, size)` has quantity `q` and its other fields as before,
and an item with another key is as before. -/
theorem updateQuantity_nonzero_sets (S : CartState) (productId : Int) (size : String)
    (q : Int) (hq : q ≠ 0) :
    (updateQuantity productId size q S).length = S.length ∧
    ∀ (i : Nat) (hi : i < S.length),
      (S[i].id = productId ∧ S[i].size = size →
        (updateQuantity productId size q S)[i]?
          = some { id := S[i].id, name := S[i].name, price := S[i].price,
                   category := S[i].category, image := S[i].image,
                   description := S[i].description, size := S[i].size,
                   quantity := q }) ∧
      (¬ (S[i].id = productId ∧ S[i].size = size) →
        (updateQuantity productId size q S)[i]? = some S[i]) := by
  unfold updateQuantity
  rw [if_neg hq]
  refine ⟨by simp, ?_⟩
  intro i hi
  constructor
  · intro hk
    rw [List.getElem?_map, List.getElem?_eq_getElem hi]
    simp [hk]
  · intro hk
    rw [List.getElem?_map, List.getElem?_eq_getElem hi]
    simp [hk]

/-- C7 at a concrete cart and the quantity `-4`: the jacket gets quantity `-4`,
the gloves stay. -/
theorem updateQuantity_nonzero_sets_witness :
    ((-4 : Int) ≠ 0) ∧
    updateQuantity 1 "M" (-4) [newLineItem jacketM, newLineItem glovesM]
      = [{ newLineItem jacketM with quantity := -4 }, newLineItem glovesM] := by
  have h := updateQuantity_nonzero_sets [newLineItem jacketM, newLineItem glovesM]
    1 "M" (-4) (by decide)
  refine ⟨by decide, ?_⟩
  apply List.ext_getElem?
  intro n
  match n with
  | 0 => exact (h.2 0 (by decide)).1 ⟨rfl, rfl⟩
  | 1 => exact (h.2 1 (by decide)).2 (by decide)
  | k + 2 =>
    have hlen : (updateQuantity 1 "M" (-4) [newLineItem jacketM, newLineItem glovesM]).length
        = 2 := h.1
    rw [List.getElem?_eq_none (by omega)]
    rfl

/-- C8, the claim as stated, fails on the cart holding the gloves and then the
jacket with quantity 1: removing the jacket and adding it again gives back the
same cart, so the re-added item is at the old position of the jacket, index 1,
and has its old quantity, 1. -/
theorem remove_then_add_counterexample :
    UniqueKeys [newLineItem glovesM, newLineItem jacketM] ∧
    [newLineItem glovesM, newLineItem jacketM][1]? = some (newLineItem jacketM) ∧
    addToCart jacketM (removeFromCart 1 "M" [newLineItem glovesM, newLineItem jacketM])
      = [newLineItem glovesM, newLineItem jacketM] ∧
    (addToCart jacketM
        (removeFromCart 1 "M" [newLineItem glovesM, newLineItem jacketM]))[1]?
      = some { id := 1, name := jacketM.name, price := jacketM.price,
               category := jacketM.category, image := jacketM.image,
               description := jacketM.description, size := "M",
               quantity := (newLineItem jacketM).quantity } :=
  ⟨by decide, rfl, rfl, rfl⟩

/-- C8, amended: on a cart `l1 ++ x :: l2` with unique keys,
`removeFromCart x.id x.size` returns `l1 ++ l2`, and a following `addToCart` of
a product with the id and size of `x` returns `l1 ++ l2` followed by the new
item, last, with quantity 1.  That is the old position of `x` only when `x`
was the last item (otherwise the old position holds another item), and the old
quantity of `x` only when that was 1. -/
theorem remove_then_add_appends (l1 l2 : CartState) (x : CartLineItem) (p : Product)
    (hS : UniqueKeys (l1 ++ x :: l2)) (hid : p.id = x.id) (hsize : p.size = x.size) :
    removeFromCart x.id x.size (l1 ++ x :: l2) = l1 ++ l2 ∧
    addToCart p (removeFromCart x.id x.size (l1 ++ x :: l2))
      = l1 ++ l2 ++ [{ id := p.id, name := p.name, price := p.price,
                       category := p.category, image := p.image,
                       description := p.description, size := p.size, quantity := 1 }] ∧
    (l2 ≠ [] →
      (addToCart p (removeFromCart x.id x.size (l1 ++ x :: l2)))[l1.length]? = l2.head? ∧
      ∀ y ∈ l2.head?, ¬ (y.id = p.id ∧ y.size = p.size)) ∧
    (x.quantity ≠ 1 → ∀ y ∈ (addToCart p
        (removeFromCart x.id x.size (l1 ++ x :: l2))).getLast?, y.quantity ≠ x.quantity) := by
  have hp := List.pairwise_append.mp hS
  have h1 : ∀ y ∈ l1, ¬ (y.id = x.id ∧ y.size = x.size) :=
    fun y hy => hp.2.2 y hy x (List.mem_cons_self x l2)
  have h2 : ∀ y ∈ l2, ¬ (y.id = x.id ∧ y.size = x.size) :=
    fun y hy hk => (List.pairwise_cons.mp hp.2.1).1 y hy ⟨hk.1.symm, hk.2.symm⟩
  have hx : ¬ ((!(decide (x.id = x.id ∧ x.size = x.size))) = true) := by simp
  have hrem : removeFromCart x.id x.size (l1 ++ x :: l2) = l1 ++ l2 := by
    have e1 := removeFromCart_of_absent h1
    have e2 := removeFromCart_of_absent h2
    unfold removeFromCart at e1 e2 ⊢
    rw [List.filter_append, List.filter_cons, if_neg hx, e1, e2]
  have habs : ∀ y ∈ l1 ++ l2, ¬ (y.id = p.id ∧ y.size = p.size) := by
    intro y hy
    rw [hid, hsize]
    rcases List.mem_append.mp hy with h | h
    · exact h1 y h
    · exact h2 y h
  have hadd : addToCart p (l1 ++ l2) = l1 ++ l2 ++ [newLineItem p] :=
    addToCart_of_absent habs
  rw [hrem, hadd]
  refine ⟨rfl, rfl, ?_, ?_⟩
  · intro hne
    cases l2 with
    | nil => exact absurd rfl hne
    | cons z rest =>
      constructor
      · rw [List.append_assoc, List.getElem?_append_right (le_refl _)]
        simp
      · intro y hy
        simp only [List.head?_cons, Option.mem_def, Option.some.injEq] at hy
        subst hy
        exact habs z (List.mem_append_right l1 (List.mem_cons_self z rest))
  · intro hq y hy
    rw [List.getLast?_append_of_ne_nil _ (by simp)] at hy
    simp only [List.getLast?_singleton, Option.mem_def, Option.some.injEq] at hy
    subst hy
    exact fun h => hq h.symm

/-- C8 amended, on the cart gloves, jacket in M with quantity 3, jacket in L:
removing the jacket in M and adding it again gives gloves, jacket in L, jacket
in M with quantity 1. -/
theorem remove_then_add_appends_witness :
    UniqueKeys ([newLineItem glovesM]
      ++ { newLineItem jacketM with quantity := 3 } :: [newLineItem jacketL]) ∧
    addToCart jacketM (removeFromCart 1 "M"
        [newLineItem glovesM, { newLineItem jacketM with quantity := 3 },
         newLineItem jacketL])
      = [newLineItem glovesM, newLineItem jacketL, newLineItem jacketM] :=
  ⟨by decide,
   (remove_then_add_appends [newLineItem glovesM] [newLineItem jacketL]
      { newLineItem jacketM with quantity := 3 } jacketM (by decide) rfl rfl).2.1⟩

/-! ## Clearing -/

/-- C9: whatever the cart holds, `clearCart` yields the empty item sequence, on
which `cartTotal` and `cartCount` are 0. -/
theorem clearCart_empties (S : CartState) :
    clearCart S = [] ∧ cartTotal (clearCart S) = 0 ∧ cartCount (clearCart S) = 0 :=
  ⟨rfl, rfl, rfl⟩

/-! ## Positive quantities -/

/-- C10: in every cart reached from the empty cart by a finite sequence of
`addToCart`, `removeFromCart`, `clearCart` and `updateQuantity` calls whose
`updateQuantity` calls all pass a non-negative quantity, every line item has
quantity at least 1. -/
theorem quantity_pos_invariant (calls : List CartAction)
    (hcalls : ∀ a ∈ calls, NonNegCall a) :
    ∀ x ∈ run emptyCart calls, 1 ≤ x.quantity :=
  run_quantity_pos calls hcalls (fun x hx => absurd hx (List.not_mem_nil x))

/-- C10 on a concrete run: add the jacket twice, set it to 5, add the gloves,
set the gloves to 0, add the jacket in L. -/
theorem quantity_pos_invariant_witness :
    (∀ a ∈ [CartAction.add jacketM, .add jacketM, .update 1 "M" 5, .add glovesM,
            .update 2 "M" 0, .add jacketL], NonNegCall a) ∧
    run emptyCart [CartAction.add jacketM, .add jacketM, .update 1 "M" 5, .add glovesM,
            .update 2 "M" 0, .add jacketL]
      = [{ newLineItem jacketM with quantity := 5 }, newLineItem jacketL] ∧
    ∀ x ∈ run emptyCart [CartAction.add jacketM, .add jacketM, .update 1 "M" 5,
            .add glovesM, .update 2 "M" 0, .add jacketL], 1 ≤ x.quantity :=
  ⟨by decide, rfl,
   quantity_pos_invariant [CartAction.add jacketM, .add jacketM, .update 1 "M" 5,
     .add glovesM, .update 2 "M" 0, .add jacketL] (by decide)⟩

end CartStore

namespace PathRouter

/-! ## Auxiliary facts on the string methods -/

/-- `startsWith` holds exactly of the strings that are the search string
followed by something. -/
theorem startsWith_iff (s search : String) :
    startsWith s search = true ↔ ∃ tail : String, s = search ++ tail := by
  unfold startsWith
  rw [List.isPrefixOf_iff_prefix]
  constructor
  · rintro ⟨t, ht⟩
    exact ⟨String.mk t, String.ext (by rw [String.data_append, ← ht])⟩
  · rintro ⟨tail, rfl⟩
    exact ⟨tail.data, by rw [String.data_append]⟩

/-- `includes` holds exactly of the strings that have the search string
between two others. -/
theorem includes_iff (s search : String) :
    includes s search = true ↔ ∃ front tail : String, s = front ++ search ++ tail := by
  unfold includes
  rw [decide_eq_true_iff]
  constructor
  · rintro ⟨a, b, hab⟩
    exact ⟨String.mk a, String.mk b,
      String.ext (by rw [String.data_append, String.data_append, ← hab])⟩
  · rintro ⟨front, tail, rfl⟩
    exact ⟨front.data, tail.data, by rw [String.data_append, String.data_append]⟩

/-- A split has at least one segment. -/
theorem splitChars_ne_nil (sep : Char) (l : List Char) : splitChars sep l ≠ [] := by
  cases l with
  | nil => simp [splitChars]
  | cons c cs =>
    unfold splitChars
    split
    · simp
    · split <;> simp

/-- A list without the separator is its own only segment. -/
theorem splitChars_of_not_mem (sep : Char) (l : List Char) (h : sep ∉ l) :
    splitChars sep l = [l] := by
  induction l with
  | nil => rfl
  | cons c cs ih =>
    have hc : c ≠ sep := fun e => h (e ▸ List.mem_cons_self c cs)
    have hcs : sep ∉ cs := fun m => h (List.mem_cons_of_mem c m)
    unfold splitChars
    rw [if_neg hc, ih hcs]

/-- The first segment is what stands before the first separator. -/
theorem splitChars_head (sep : Char) (b r : List Char) (h : sep ∉ b) :
    (splitChars sep (b ++ sep :: r)).headD [] = b := by
  induction b with
  | nil => simp [splitChars]
  | cons c cs ih =>
    have hc : c ≠ sep := fun e => h (e ▸ List.mem_cons_self c cs)
    have hcs : sep ∉ cs := fun m => h (List.mem_cons_of_mem c m)
    have ih2 := ih hcs
    rw [List.cons_append]
    unfold splitChars
    rw [if_neg hc]
    cases hsp : splitChars sep (cs ++ sep :: r) with
    | nil => exact absurd hsp (splitChars_ne_nil sep _)
    | cons seg rest =>
      rw [hsp] at ih2
      simp only [List.headD_cons] at ih2 ⊢
      rw [ih2]

/-- A split has one segment more than the list has separators. -/
theorem splitChars_length (sep : Char) (l : List Char) :
    (splitChars sep l).length = l.count sep + 1 := by
  induction l with
  | nil => rfl
  | cons c cs ih =>
    unfold splitChars
    by_cases hc : c = sep
    · rw [if_pos hc, List.length_cons, ih, hc, List.count_cons_self]
    · rw [if_neg hc, List.count_cons_of_ne (fun e => hc e.symm)]
      cases hsp : splitChars sep cs with
      | nil => exact absurd hsp (splitChars_ne_nil sep _)
      | cons seg rest => rw [hsp] at ih; exact ih

/-- The last segment is what stands after the last separator. -/
theorem splitChars_getLast (sep : Char) (a b : List Char) (h : sep ∉ b) :
    (splitChars sep (a ++ sep :: b)).getLast? = some b := by
  induction a with
  | nil =>
    simp only [List.nil_append]
    unfold splitChars
    rw [if_pos rfl, splitChars_of_not_mem sep b h]
    rfl
  | cons c cs ih =>
    rw [List.cons_append]
    unfold splitChars
    cases hsp : splitChars sep (cs ++ sep :: b) with
    | nil => exact absurd hsp (splitChars_ne_nil sep _)
    | cons seg rest =>
      rw [hsp] at ih
      by_cases hc : c = sep
      · rw [if_pos hc, List.getLast?_cons_cons]
        exact ih
      · rw [if_neg hc]
        cases rest with
        | nil =>
          have hlen := splitChars_length sep (cs ++ sep :: b)
          rw [hsp, List.count_append, List.count_cons_self] at hlen
          simp only [List.length_singleton] at hlen
          omega
        | cons s2 r2 =>
          simp only [List.getLast?_cons_cons] at ih ⊢
          exact ih

/-- The first segment of a pattern that is a string, a colon and a string,
the first without a colon, is the first string. -/
theorem split_colon_headD (base rest : String) (h : ':' ∉ base.data) :
    (split (base ++ ":" ++ rest) ':').headD "" = base := by
  unfold split
  have e : (base ++ ":" ++ rest).data = base.data ++ ':' :: rest.data := by
    rw [String.data_append, String.data_append, List.append_assoc]
    rfl
  rw [e]
  have h2 := List.headD_map String.mk (splitChars ':' (base.data ++ ':' :: rest.data)) []
  rw [splitChars_head ':' base.data rest.data h] at h2
  exact h2

/-- `Route` on a pattern without `:id` (line 81 alone). -/
theorem Route_of_not_includes {V : Type} (path : String) (v : V) (cp : String)
    (h : includes path ":id" = false) :
    Route path v cp
      = if cp = path then some { component := v, currentPath := none } else none := by
  unfold Route
  rw [if_neg (by rw [h]; exact Bool.false_ne_true)]

/-- `Route` on a pattern with `:id` whose part before the first colon is
`base`: the test of line 81 adds nothing to the test of line 77. -/
theorem Route_of_includes {V : Type} (base rest : String) (v : V) (cp : String)
    (h : includes (base ++ ":" ++ rest) ":id" = true) (hb : ':' ∉ base.data) :
    Route (base ++ ":" ++ rest) v cp
      = if startsWith cp base = true
        then some { component := v, currentPath := some cp } else none := by
  unfold Route
  rw [if_pos h]
  simp only [split_colon_headD base rest hb]
  by_cases hs : startsWith cp base = true
  · rw [if_pos hs, if_pos hs]
  · rw [if_neg hs, if_neg hs]
    have hne : cp ≠ base ++ ":" ++ rest := by
      intro e
      apply hs
      rw [startsWith_iff]
      exact ⟨":" ++ rest, by rw [e, String.append_assoc]⟩
    rw [if_neg hne]

/-- A string that includes `:id` is some string without a colon, a colon and
a string. -/
theorem exists_colon_of_includes (path : String) (h : includes path ":id" = true) :
    ∃ base rest : String, path = base ++ ":" ++ rest ∧ ':' ∉ base.data := by
  obtain ⟨front, tail, hft⟩ := (includes_iff path ":id").mp h
  have hmem : ':' ∈ path.data := by
    rw [hft, String.data_append, String.data_append]
    exact List.mem_append_left _ (List.mem_append_right _ (by decide))
  obtain ⟨a, b, hab, ha⟩ := List.eq_append_cons_of_mem hmem
  refine ⟨String.mk a, String.mk b, String.ext ?_, ha⟩
  rw [String.data_append, String.data_append, List.append_assoc, hab]
  rfl

/-- The six children of `Router`, each reduced to its test on the current path. -/
theorem App_eq (cp : String) :
    App cp =
      [if cp = "/" then some { component := View.HomePage, currentPath := none } else none,
       if cp = "/shop" then some { component := View.ShopPage, currentPath := none } else none,
       if startsWith cp "/product/" = true
         then some { component := View.ProductPage, currentPath := some cp } else none,
       if cp = "/cart" then some { component := View.CartPage, currentPath := none } else none,
       if cp = "/checkout"
         then some { component := View.CheckoutPage, currentPath := none } else none,
       if cp = "/account"
         then some { component := View.AccountPage, currentPath := none } else none] := by
  have h3 : Route "/product/:id" View.ProductPage cp
      = if startsWith cp "/product/" = true
        then some { component := View.ProductPage, currentPath := some cp } else none :=
    Route_of_includes "/product/" "id" View.ProductPage cp (by decide) (by decide)
  unfold App Router routes
  simp only [List.map]
  rw [h3, Route_of_not_includes "/" _ cp (by decide),
    Route_of_not_includes "/shop" _ cp (by decide),
    Route_of_not_includes "/cart" _ cp (by decide),
    Route_of_not_includes "/checkout" _ cp (by decide),
    Route_of_not_includes "/account" _ cp (by decide)]

/-! ## Auxiliary facts on `parseInt` and the catalogue -/

/-- A decimal digit is a character from `0` (48) to `9` (57). -/
theorem isDigit_iff (c : Char) : c.isDigit = true ↔ 48 ≤ c.toNat ∧ c.toNat ≤ 57 := by
  unfold Char.isDigit Char.toNat
  rw [Bool.and_eq_true, decide_eq_true_iff, decide_eq_true_iff]
  exact ⟨fun h => ⟨h.1, h.2⟩, fun h => ⟨h.1, h.2⟩⟩

/-- A decimal digit is not white space. -/
theorem isWhiteSpace_of_isDigit {c : Char} (h : c.isDigit = true) : isWhiteSpace c = false := by
  have hb := (isDigit_iff c).mp h
  unfold isWhiteSpace
  rw [decide_eq_false_iff_not]
  simp only [List.mem_cons, List.mem_singleton, List.not_mem_nil, or_false]
  omega

/-- A decimal digit has its value as a digit. -/
theorem digitValue_of_isDigit {c : Char} (h : c.isDigit = true) :
    digitValue c = some (c.toNat - 48) := by
  have hb := (isDigit_iff c).mp h
  unfold digitValue
  rw [if_pos hb]

/-- A decimal digit is a digit of radix 10. -/
theorem isRadixDigit_of_isDigit {c : Char} (h : c.isDigit = true) :
    isRadixDigit 10 c = true := by
  have hb := (isDigit_iff c).mp h
  unfold isRadixDigit
  rw [digitValue_of_isDigit h]
  simp only [decide_eq_true_eq]
  omega

/-- A character that is no decimal digit is no digit of radix 10. -/
theorem isRadixDigit_of_not_isDigit {c : Char} (h : c.isDigit = false) :
    isRadixDigit 10 c = false := by
  have hb : ¬ (48 ≤ c.toNat ∧ c.toNat ≤ 57) := by
    rw [← isDigit_iff, h]; exact Bool.false_ne_true
  unfold isRadixDigit digitValue
  rw [if_neg hb]
  split_ifs with h1 h2
  · simp only [decide_eq_false_iff_not]; omega
  · simp only [decide_eq_false_iff_not]; omega
  · rfl

/-- The fold of `parseInt` over decimal digits computes the number they
write in base 10. -/
theorem foldl_digits (ds : List Char) (hd : ∀ c ∈ ds, c.isDigit = true) :
    ds.foldl (fun acc c => 10 * acc + (digitValue c).getD 0) 0
      = Nat.ofDigits 10 ((ds.map (fun c => c.toNat - 48)).reverse) := by
  induction ds using List.reverseRecOn with
  | nil => rfl
  | append_singleton l c ih =>
    have hc : c.isDigit = true := hd c (by simp)
    have hl : ∀ x ∈ l, x.isDigit = true := fun x hx => hd x (by simp [hx])
    rw [List.foldl_append, List.map_append, List.reverse_append]
    simp only [List.foldl_cons, List.foldl_nil, List.map_cons, List.map_nil,
      List.reverse_cons, List.reverse_nil, List.nil_append, List.singleton_append]
    rw [Nat.ofDigits_cons, ih hl, digitValue_of_isDigit hc]
    simp only [Option.getD_some]
    ring

/-- On a non-empty run of decimal digits `parseInt` is the number they write. -/
theorem parseInt_digits (ds : List Char) (hne : ds ≠ []) (hd : ∀ c ∈ ds, c.isDigit = true) :
    parseInt (String.mk ds)
      = some ((Nat.ofDigits 10 ((ds.map (fun c => c.toNat - 48)).reverse) : Nat) : Int) := by
  obtain ⟨c, cs, rfl⟩ := List.exists_cons_of_ne_nil hne
  have hc : c.isDigit = true := hd c (List.mem_cons_self c cs)
  have hdrop : (c :: cs).dropWhile isWhiteSpace = c :: cs :=
    List.dropWhile_cons_of_neg (by rw [isWhiteSpace_of_isDigit hc]; exact Bool.false_ne_true)
  have hminus : ¬ ((c :: cs).head? = some '-') := by
    intro e
    simp only [List.head?_cons, Option.some.injEq] at e
    rw [e] at hc
    exact absurd hc (by decide)
  have hplus : ¬ ((c :: cs).head? = some '+') := by
    intro e
    simp only [List.head?_cons, Option.some.injEq] at e
    rw [e] at hc
    exact absurd hc (by decide)
  have hhex : ¬ ((c :: cs).take 2 = ['0', 'x'] ∨ (c :: cs).take 2 = ['0', 'X']) := by
    intro e
    cases cs with
    | nil => rcases e with e | e <;> simp at e
    | cons d r =>
      have hdd : d.isDigit = true := hd d (by simp)
      rcases e with e | e
      · simp only [List.take_succ_cons, List.take_zero, List.cons.injEq, and_true] at e
        rw [e.2] at hdd
        exact absurd hdd (by decide)
      · simp only [List.take_succ_cons, List.take_zero, List.cons.injEq, and_true] at e
        rw [e.2] at hdd
        exact absurd hdd (by decide)
  have htake : (c :: cs).takeWhile (isRadixDigit 10) = c :: cs :=
    List.takeWhile_eq_self_iff.mpr (fun x hx => isRadixDigit_of_isDigit (hd x hx))
  unfold parseInt
  simp only [hdrop, if_neg hminus, if_neg (not_or.mpr ⟨hplus, hminus⟩), hhex, decide_False,
    Bool.false_eq_true, if_false, htake]
  rw [if_neg (List.cons_ne_nil c cs), foldl_digits (c :: cs) hd, one_mul]

/-- After a run of characters that starts with no decimal digit `parseInt`
finds no hexadecimal mark and no digit. -/
theorem parseInt_tail_none (body : List Char)
    (hb : ∀ c, body.head? = some c → c.isDigit = false) :
    decide (body.take 2 = ['0', 'x'] ∨ body.take 2 = ['0', 'X']) = false ∧
    body.takeWhile (isRadixDigit 10) = [] := by
  cases body with
  | nil => exact ⟨by decide, rfl⟩
  | cons c r =>
    have hc : c.isDigit = false := hb c rfl
    constructor
    · rw [decide_eq_false_iff_not]
      intro e
      have h0 : c = '0' := by
        cases r with
        | nil => rcases e with e | e <;> simp at e
        | cons d r2 =>
          rcases e with e | e
          · simp only [List.take_succ_cons, List.take_zero, List.cons.injEq, and_true] at e
            exact e.1
          · simp only [List.take_succ_cons, List.take_zero, List.cons.injEq, and_true] at e
            exact e.1
      rw [h0] at hc
      exact absurd hc (by decide)
    · exact List.takeWhile_cons_of_neg
        (by rw [isRadixDigit_of_not_isDigit hc]; exact Bool.false_ne_true)

/-- Dropping leading white space drops a white-space run in front of a list
that starts with no white space. -/
theorem dropWhile_isWhiteSpace_append (ws l : List Char)
    (hws : ∀ c ∈ ws, isWhiteSpace c = true)
    (hl : ∀ c, l.head? = some c → isWhiteSpace c = false) :
    (ws ++ l).dropWhile isWhiteSpace = l := by
  induction ws with
  | nil =>
    cases l with
    | nil => rfl
    | cons c r =>
      exact List.dropWhile_cons_of_neg (by rw [hl c rfl]; exact Bool.false_ne_true)
  | cons w rest ih =>
    rw [List.cons_append, List.dropWhile_cons_of_pos (hws w (List.mem_cons_self w rest))]
    exact ih (fun c hc => hws c (List.mem_cons_of_mem w hc))

/-- A string made of white space, then an optional sign, then a run that
starts with no decimal digit, is `NaN` for `parseInt`. -/
theorem parseInt_none (ws sg body : List Char)
    (hws : ∀ c ∈ ws, isWhiteSpace c = true)
    (hsg : sg = [] ∨ sg = ['+'] ∨ sg = ['-'])
    (hdig : ∀ c, body.head? = some c → c.isDigit = false)
    (hfirst : sg = [] → ∀ c, body.head? = some c →
      isWhiteSpace c = false ∧ c ≠ '+' ∧ c ≠ '-') :
    parseInt (String.mk (ws ++ sg ++ body)) = none := by
  obtain ⟨hhex, htake⟩ := parseInt_tail_none body hdig
  rcases hsg with rfl | rfl | rfl
  · have hf := hfirst rfl
    have hdrop : (ws ++ [] ++ body).dropWhile isWhiteSpace = body := by
      rw [List.append_nil]
      exact dropWhile_isWhiteSpace_append ws body hws (fun c hc => (hf c hc).1)
    have hminus : ¬ (body.head? = some '-') := fun e => (hf _ e).2.2 rfl
    have hplus : ¬ (body.head? = some '+') := fun e => (hf _ e).2.1 rfl
    unfold parseInt
    simp only [hdrop, if_neg hminus, if_neg (not_or.mpr ⟨hplus, hminus⟩), hhex,
      Bool.false_eq_true, if_false, htake, if_true]
  · have hdrop : (ws ++ ['+'] ++ body).dropWhile isWhiteSpace = '+' :: body := by
      rw [List.append_assoc]
      exact dropWhile_isWhiteSpace_append ws ('+' :: body) hws
        (fun c hc => by
          simp only [List.singleton_append, List.head?_cons, Option.some.injEq] at hc
          rw [← hc]; decide)
    unfold parseInt
    simp only [hdrop, List.head?_cons, true_or, if_true, List.tail_cons, hhex,
      Bool.false_eq_true, if_false, htake]
  · have hdrop : (ws ++ ['-'] ++ body).dropWhile isWhiteSpace = '-' :: body := by
      rw [List.append_assoc]
      exact dropWhile_isWhiteSpace_append ws ('-' :: body) hws
        (fun c hc => by
          simp only [List.singleton_append, List.head?_cons, Option.some.injEq] at hc
          rw [← hc]; decide)
    unfold parseInt
    simp only [hdrop, List.head?_cons, or_true, if_true, List.tail_cons, hhex,
      Bool.false_eq_true, if_false, htake]

/-- The last segment of a path that ends in a slash and a string without
slash is that string. -/
theorem split_slash_getLast (front seg : String) (h : '/' ∉ seg.data) :
    (split (front ++ "/" ++ seg) '/').getLast? = some seg := by
  unfold split
  have e : (front ++ "/" ++ seg).data = front.data ++ '/' :: seg.data := by
    rw [String.data_append, String.data_append, List.append_assoc]
    rfl
  rw [e, List.getLast?_map, splitChars_getLast '/' front.data seg.data h]
  rfl

/-- The branch `ProductPage` takes, from the last segment of the path. -/
theorem ProductPage_of_segment (cp seg : String)
    (h : (split cp '/').getLast? = some seg) :
    ProductPage cp =
      match mockProducts.find? (fun p => decide (some p.id = parseInt seg)) with
      | some product => ProductView.product product
      | none => ProductView.notFound := by
  unfold ProductPage
  rw [h]
  rfl

/-- The catalogue has exactly one record for each id from 1 to 6 and none for
another id: the search by id finds the record with that id. -/
theorem mockProducts_find (n : Int) :
    (∀ p, mockProducts.find? (fun q => decide (some q.id = some n)) = some p ↔
      (p ∈ mockProducts ∧ p.id = n)) ∧
    (mockProducts.find? (fun q => decide (some q.id = some n)) = none ↔
      ¬ (1 ≤ n ∧ n ≤ 6)) := by
  constructor
  · intro p
    constructor
    · intro h
      refine ⟨List.mem_of_find?_eq_some h, ?_⟩
      have := List.find?_some h
      simpa using this
    · rintro ⟨hm, rfl⟩
      simp only [mockProducts, List.mem_cons, List.mem_singleton, List.not_mem_nil,
        or_false] at hm
      rcases hm with rfl | rfl | rfl | rfl | rfl | rfl <;> rfl
  · rw [List.find?_eq_none]
    constructor
    · intro h hn
      obtain ⟨h1, h6⟩ := hn
      have hcase : n = 1 ∨ n = 2 ∨ n = 3 ∨ n = 4 ∨ n = 5 ∨ n = 6 := by omega
      have hex : ∃ p ∈ mockProducts, p.id = n := by
        rcases hcase with rfl | rfl | rfl | rfl | rfl | rfl
        · exact ⟨mockProducts.get ⟨0, by decide⟩, List.get_mem _ _ _, rfl⟩
        · exact ⟨mockProducts.get ⟨1, by decide⟩, List.get_mem _ _ _, rfl⟩
        · exact ⟨mockProducts.get ⟨2, by decide⟩, List.get_mem _ _ _, rfl⟩
        · exact ⟨mockProducts.get ⟨3, by decide⟩, List.get_mem _ _ _, rfl⟩
        · exact ⟨mockProducts.get ⟨4, by decide⟩, List.get_mem _ _ _, rfl⟩
        · exact ⟨mockProducts.get ⟨5, by decide⟩, List.get_mem _ _ _, rfl⟩
      obtain ⟨p, hp, hid⟩ := hex
      exact h p hp (by rw [hid]; exact decide_eq_true rfl)
    · intro hn p hp
      simp only [mockProducts, List.mem_cons, List.mem_singleton, List.not_mem_nil,
        or_false] at hp
      simp only [Option.some.injEq, decide_eq_true_eq]
      rcases hp with rfl | rfl | rfl | rfl | rfl | rfl <;>
      · intro e
        apply hn
        rw [← e]
        decide

/-! ## Route matching -/

/-- C11: for a pattern that does not contain `:id`, `Route` renders its view
exactly when the current path equals the pattern, and renders nothing (`null`)
otherwise; no prefix, suffix, trailing slash or other case matches. -/
theorem Route_exact {V : Type} (path currentPath : String) (v : V)
    (h : includes path ":id" = false) :
    ((Route path v currentPath).isSome = true ↔ currentPath = path) ∧
    (currentPath = path →
      Route path v currentPath = some { component := v, currentPath := none }) ∧
    (currentPath ≠ path → Route path v currentPath = none) := by
  rw [Route_of_not_includes path v currentPath h]
  by_cases e : currentPath = path
  · simp [e]
  · simp [e]

/-- C11 on the pattern `/shop`: the path `/shop` renders the view; a longer
path, a shorter one, one with a trailing slash and one in another case render
nothing. -/
theorem Route_exact_witness :
    includes "/shop" ":id" = false ∧
    Route "/shop" View.ShopPage "/shop"
      = some { component := View.ShopPage, currentPath := none } ∧
    Route "/shop" View.ShopPage "/shopping" = none ∧
    Route "/shop" View.ShopPage "/sho" = none ∧
    Route "/shop" View.ShopPage "/shop/" = none ∧
    Route "/shop" View.ShopPage "/Shop" = none :=
  ⟨by decide,
   (Route_exact "/shop" "/shop" View.ShopPage (by decide)).2.1 rfl,
   (Route_exact "/shop" "/shopping" View.ShopPage (by decide)).2.2 (by decide),
   (Route_exact "/shop" "/sho" View.ShopPage (by decide)).2.2 (by decide),
   (Route_exact "/shop" "/shop/" View.ShopPage (by decide)).2.2 (by decide),
   (Route_exact "/shop" "/Shop" View.ShopPage (by decide)).2.2 (by decide)⟩

/-- C12, the claim as stated, fails on the pattern `/user/:name/:id`: the part
of the pattern before the placeholder `:id` is `/user/:name/`, the path
`/user/x` does not start with it, and `Route` renders the view all the same,
because `/user/x` starts with `/user/`, the part before the first colon. -/
theorem Route_param_counterexample :
    includes "/user/:name/:id" ":id" = true ∧
    "/user/:name/:id" = "/user/:name/" ++ ":id" ∧
    includes "/user/:name/" ":id" = false ∧
    startsWith "/user/x" "/user/:name/" = false ∧
    Route "/user/:name/:id" View.ProductPage "/user/x"
      = some { component := View.ProductPage, currentPath := some "/user/x" } :=
  ⟨by decide, by decide, by decide, by decide, by decide⟩

/-- C12, amended: for a pattern that contains `:id`, `Route` renders its view
exactly when the current path starts with the part of the pattern before its
first colon, and the view then receives the full current path.  That part is
the part before the placeholder whenever no colon stands before the
placeholder; for `/product/:id` it is `/product/`, so `/product/123` matches
and `/product` and `/products` do not. -/
theorem Route_param {V : Type} (path currentPath : String) (v : V)
    (h : includes path ":id" = true) :
    (∃ base rest : String, path = base ++ ":" ++ rest ∧ ':' ∉ base.data) ∧
    (∀ base rest : String, path = base ++ ":" ++ rest → ':' ∉ base.data →
      ((Route path v currentPath).isSome = true ↔ ∃ tail : String, currentPath = base ++ tail) ∧
      (∀ e, Route path v currentPath = some e →
        e = { component := v, currentPath := some currentPath })) ∧
    (∀ front tail : String, path = front ++ ":id" ++ tail → ':' ∉ front.data →
      ((Route path v currentPath).isSome = true ↔ ∃ t : String, currentPath = front ++ t)) ∧
    Route "/product/:id" v "/product/123"
      = some { component := v, currentPath := some "/product/123" } ∧
    Route "/product/:id" v "/product" = none ∧
    Route "/product/:id" v "/products" = none := by
  have key : ∀ base rest : String, path = base ++ ":" ++ rest → ':' ∉ base.data →
      ((Route path v currentPath).isSome = true ↔ ∃ tail : String, currentPath = base ++ tail) ∧
      (∀ e, Route path v currentPath = some e →
        e = { component := v, currentPath := some currentPath }) := by
    intro base rest hp hb
    subst hp
    rw [Route_of_includes base rest v currentPath h hb, ← startsWith_iff]
    by_cases hs : startsWith currentPath base = true
    · rw [if_pos hs]
      exact ⟨⟨fun _ => hs, fun _ => rfl⟩, fun e he => (Option.some.inj he).symm⟩
    · rw [if_neg hs]
      refine ⟨⟨fun hn => ?_, fun hn => absurd hn hs⟩, fun e he => ?_⟩
      · simp at hn
      · simp at he
  refine ⟨exists_colon_of_includes path h, key, ?_, rfl, rfl, rfl⟩
  intro front tail hp hf
  refine (key front ("id" ++ tail) ?_ hf).1
  rw [hp]
  apply String.ext
  simp only [String.data_append, List.append_assoc]
  rfl

/-- C12 amended, on the declared pattern `/product/:id` and the path
`/product/42`. -/
theorem Route_param_witness :
    includes "/product/:id" ":id" = true ∧
    ((Route "/product/:id" View.ProductPage "/product/42").isSome = true ↔
      ∃ t : String, "/product/42" = "/product/" ++ t) ∧
    Route "/product/:id" View.ProductPage "/product/42"
      = some { component := View.ProductPage, currentPath := some "/product/42" } :=
  ⟨by decide,
   (Route_param "/product/:id" "/product/42" View.ProductPage (by decide)).2.2.1
     "/product/" "" rfl (by decide),
   by decide⟩

/-! ## The route table -/

/-- C13: for the six declared routes and any current path, at most one route
renders a view; exactly one does for `/`, `/shop`, `/cart`, `/checkout`,
`/account` and for every path that starts with `/product/`; for every other
path none does. -/
theorem App_renders_at_most_one (currentPath : String) :
    (App currentPath).reduceOption.length ≤ 1 ∧
    (currentPath = "/" → (App currentPath).reduceOption
      = [{ component := View.HomePage, currentPath := none }]) ∧
    (currentPath = "/shop" → (App currentPath).reduceOption
      = [{ component := View.ShopPage, currentPath := none }]) ∧
    (currentPath = "/cart" → (App currentPath).reduceOption
      = [{ component := View.CartPage, currentPath := none }]) ∧
    (currentPath = "/checkout" → (App currentPath).reduceOption
      = [{ component := View.CheckoutPage, currentPath := none }]) ∧
    (currentPath = "/account" → (App currentPath).reduceOption
      = [{ component := View.AccountPage, currentPath := none }]) ∧
    (startsWith currentPath "/product/" = true → (App currentPath).reduceOption
      = [{ component := View.ProductPage, currentPath := some currentPath }]) ∧
    (currentPath ≠ "/" → currentPath ≠ "/shop" → currentPath ≠ "/cart" →
      currentPath ≠ "/checkout" → currentPath ≠ "/account" →
      startsWith currentPath "/product/" = false →
      (App currentPath).reduceOption = []) := by
  have hprod : startsWith currentPath "/product/" = true →
      currentPath ≠ "/" ∧ currentPath ≠ "/shop" ∧ currentPath ≠ "/cart" ∧
      currentPath ≠ "/checkout" ∧ currentPath ≠ "/account" := by
    intro hs
    refine ⟨?_, ?_, ?_, ?_, ?_⟩ <;>
    · intro e
      rw [e] at hs
      exact absurd hs (by decide)
  refine ⟨?_, ?_, ?_, ?_, ?_, ?_, ?_, ?_⟩
  · rw [App_eq]
    by_cases hs : startsWith currentPath "/product/" = true
    · obtain ⟨h1, h2, h3, h4, h5⟩ := hprod hs
      simp [hs, h1, h2, h3, h4, h5, List.reduceOption]
    · by_cases h1 : currentPath = "/"
      · subst h1; decide
      · by_cases h2 : currentPath = "/shop"
        · subst h2; decide
        · by_cases h3 : currentPath = "/cart"
          · subst h3; decide
          · by_cases h4 : currentPath = "/checkout"
            · subst h4; decide
            · by_cases h5 : currentPath = "/account"
              · subst h5; decide
              · simp [hs, h1, h2, h3, h4, h5, List.reduceOption]
  · intro e; subst e; decide
  · intro e; subst e; decide
  · intro e; subst e; decide
  · intro e; subst e; decide
  · intro e; subst e; decide
  · intro hs
    obtain ⟨h1, h2, h3, h4, h5⟩ := hprod hs
    rw [App_eq]
    simp [hs, h1, h2, h3, h4, h5, List.reduceOption]
  · intro h1 h2 h3 h4 h5 hs
    rw [App_eq]
    simp [hs, h1, h2, h3, h4, h5, List.reduceOption]

/-! ## The product page -/

/-- C14, the claim as stated, fails on the paths `/product/+2` and
`/product/ 3`: the last segment does not start with a number, its first
character being a sign or a space and no digit, and `ProductPage` shows the
products with id 2 and id 3, because `parseInt` skips leading white space and
takes one sign. -/
theorem ProductPage_counterexample :
    (split "/product/+2" '/').getLast? = some "+2" ∧
    "+2".data.head? = some '+' ∧ '+'.isDigit = false ∧
    (∃ p, p.id = 2 ∧ p.name = "Thermal Gloves" ∧
      ProductPage "/product/+2" = ProductView.product p) ∧
    (split "/product/ 3" '/').getLast? = some " 3" ∧
    " 3".data.head? = some ' ' ∧ ' '.isDigit = false ∧
    (∃ p, p.id = 3 ∧ p.name = "Heated Vest" ∧
      ProductPage "/product/ 3" = ProductView.product p) :=
  ⟨by decide, rfl, by decide, ⟨_, rfl, rfl, rfl⟩, by decide, rfl, by decide,
   ⟨_, rfl, rfl, rfl⟩⟩

/-- C14, amended: on a path `/product/<n>`, `<n>` a non-empty run of decimal
digits writing the number `n`, `ProductPage` shows the catalogue record whose
id is `n`: some record exactly when `n` is from 1 to 6 (`/product/2` shows the
one with id 2), the not-found message for any other `n` (`/product/999`).  It
shows not-found too when the last segment is empty, and when the last segment,
after optional leading white space and one optional sign, does not start with
a decimal digit. -/
theorem ProductPage_resolves :
    (∀ ds : List Char, ds ≠ [] → (∀ c ∈ ds, c.isDigit = true) →
      (∀ p, ProductPage ("/product/" ++ String.mk ds) = ProductView.product p ↔
        (p ∈ mockProducts ∧
          p.id = ((Nat.ofDigits 10 ((ds.map (fun c => c.toNat - 48)).reverse) : Nat) : Int))) ∧
      (ProductPage ("/product/" ++ String.mk ds) = ProductView.notFound ↔
        ¬ (1 ≤ Nat.ofDigits 10 ((ds.map (fun c => c.toNat - 48)).reverse) ∧
           Nat.ofDigits 10 ((ds.map (fun c => c.toNat - 48)).reverse) ≤ 6))) ∧
    (∃ p, p.id = 2 ∧ p.name = "Thermal Gloves" ∧
      ProductPage "/product/2" = ProductView.product p) ∧
    ProductPage "/product/999" = ProductView.notFound ∧
    ProductPage "/product/" = ProductView.notFound ∧
    ProductPage "/product/abc" = ProductView.notFound ∧
    (∀ cp : String, (split cp '/').getLast? = some "" →
      ProductPage cp = ProductView.notFound) ∧
    (∀ (cp seg : String) (ws sg body : List Char),
      (split cp '/').getLast? = some seg →
      seg.data = ws ++ sg ++ body →
      (∀ c ∈ ws, isWhiteSpace c = true) →
      (sg = [] ∨ sg = ['+'] ∨ sg = ['-']) →
      (∀ c, body.head? = some c → c.isDigit = false) →
      (sg = [] → ∀ c, body.head? = some c → isWhiteSpace c = false ∧ c ≠ '+' ∧ c ≠ '-') →
      ProductPage cp = ProductView.notFound) := by
  have hnan : ∀ (cp seg : String) (ws sg body : List Char),
      (split cp '/').getLast? = some seg →
      seg.data = ws ++ sg ++ body →
      (∀ c ∈ ws, isWhiteSpace c = true) →
      (sg = [] ∨ sg = ['+'] ∨ sg = ['-']) →
      (∀ c, body.head? = some c → c.isDigit = false) →
      (sg = [] → ∀ c, body.head? = some c → isWhiteSpace c = false ∧ c ≠ '+' ∧ c ≠ '-') →
      ProductPage cp = ProductView.notFound := by
    intro cp seg ws sg body hlast hseg hws hsg hdig hfirst
    have hp : parseInt seg = none := by
      have e : seg = String.mk (ws ++ sg ++ body) := String.ext hseg
      rw [e]
      exact parseInt_none ws sg body hws hsg hdig hfirst
    rw [ProductPage_of_segment cp seg hlast, hp]
    have hf : mockProducts.find? (fun p => decide (some p.id = (none : Option Int))) = none := by
      rw [List.find?_eq_none]
      intro x _
      simp
    rw [hf]
  refine ⟨?_, ⟨_, rfl, rfl, rfl⟩, rfl, rfl, rfl, ?_, hnan⟩
  · intro ds hne hd
    have hslash : '/' ∉ (String.mk ds).data := by
      intro hm
      exact absurd (hd '/' hm) (by decide)
    have hlast : (split ("/product/" ++ String.mk ds) '/').getLast? = some (String.mk ds) :=
      split_slash_getLast "/product" (String.mk ds) hslash
    obtain ⟨hsome, hnone⟩ := mockProducts_find
      ((Nat.ofDigits 10 ((ds.map (fun c => c.toNat - 48)).reverse) : Nat) : Int)
    rw [ProductPage_of_segment _ _ hlast, parseInt_digits ds hne hd]
    cases hf : mockProducts.find? (fun q => decide (some q.id
        = some ((Nat.ofDigits 10 ((ds.map (fun c => c.toNat - 48)).reverse) : Nat) : Int))) with
    | none =>
      have hout := hnone.mp hf
      refine ⟨fun p => ⟨fun h => by simp at h, fun h => ?_⟩, ⟨fun _ => ?_, fun _ => rfl⟩⟩
      · have := (hsome p).mpr h
        rw [hf] at this
        simp at this
      · intro hin
        apply hout
        exact ⟨by exact_mod_cast hin.1, by exact_mod_cast hin.2⟩
    | some q =>
      have hq := (hsome q).mp hf
      refine ⟨fun p => ⟨fun h => ?_, fun h => ?_⟩, ⟨fun h => by simp at h, fun hn => ?_⟩⟩
      · have e : q = p := by simpa using h
        rw [← e]
        exact hq
      · have := (hsome p).mpr h
        rw [hf] at this
        rw [Option.some.inj this]
      · exfalso
        have hin : ¬ (1 ≤ ((Nat.ofDigits 10 ((ds.map (fun c => c.toNat - 48)).reverse) : Nat) : Int)
            ∧ ((Nat.ofDigits 10 ((ds.map (fun c => c.toNat - 48)).reverse) : Nat) : Int) ≤ 6) := by
          intro hin
          exact hn ⟨by exact_mod_cast hin.1, by exact_mod_cast hin.2⟩
        have := hnone.mpr hin
        rw [hf] at this
        simp at this
  · intro cp hlast
    exact hnan cp "" [] [] [] hlast rfl (fun c hc => absurd hc (List.not_mem_nil c))
      (Or.inl rfl) (fun c hc => by simp at hc) (fun _ c hc => by simp at hc)

end PathRouter

namespace CartStore

/-! ## The totals after an add -/

/-- Bumping by one the quantity of every item with a key adds to the sum of
the quantities the number of items with that key. -/
theorem sum_quantity_map_bump (productId : Int) (size : String) (S : CartState) :
    ((S.map (fun item =>
        if item.id = productId ∧ item.size = size
        then { item with quantity := item.quantity + 1 }
        else item)).map (fun item => item.quantity)).sum
      = (S.map (fun item => item.quantity)).sum
        + ((S.countP (fun item => decide (item.id = productId ∧ item.size = size)) : Nat) : Int) := by
  induction S with
  | nil => rfl
  | cons x rest ih =>
    by_cases hx : x.id = productId ∧ x.size = size
    · have hd : decide (x.id = productId ∧ x.size = size) = true := decide_eq_true hx
      rw [List.map_cons, if_pos hx, List.map_cons, List.sum_cons, ih, List.map_cons,
        List.sum_cons, List.countP_cons, if_pos hd]
      push_cast
      ring
    · have hd : ¬ (decide (x.id = productId ∧ x.size = size) = true) := by
        rw [decide_eq_true_iff]; exact hx
      rw [List.map_cons, if_neg hx, List.map_cons, List.sum_cons, ih, List.map_cons,
        List.sum_cons, List.countP_cons, if_neg hd]
      exact (add_assoc _ _ _).symm

/-- Bumping by one the quantity of every item with a key adds to the sum of
price times quantity the prices of the items with that key. -/
theorem sum_price_map_bump (productId : Int) (size : String) (S : CartState) :
    ((S.map (fun item =>
        if item.id = productId ∧ item.size = size
        then { item with quantity := item.quantity + 1 }
        else item)).map (fun item => item.price * (item.quantity : ℚ))).sum
      = (S.map (fun item => item.price * (item.quantity : ℚ))).sum
        + ((S.filter (fun item => decide (item.id = productId ∧ item.size = size))).map
            (fun item => item.price)).sum := by
  induction S with
  | nil => simp
  | cons x rest ih =>
    by_cases hx : x.id = productId ∧ x.size = size
    · have hd : decide (x.id = productId ∧ x.size = size) = true := decide_eq_true hx
      rw [List.map_cons, if_pos hx, List.map_cons, List.sum_cons, ih, List.map_cons,
        List.sum_cons, List.filter_cons, if_pos hd, List.map_cons, List.sum_cons]
      push_cast
      ring
    · have hd : ¬ (decide (x.id = productId ∧ x.size = size) = true) := by
        rw [decide_eq_true_iff]; exact hx
      rw [List.map_cons, if_neg hx, List.map_cons, List.sum_cons, ih, List.map_cons,
        List.sum_cons, List.filter_cons, if_neg hd]
      ring

/-- Under key uniqueness the items with the key of an item of the cart are
that item alone. -/
theorem UniqueKeys.filter_key {S : CartState} (hS : UniqueKeys S) {x : CartLineItem}
    (hx : x ∈ S) (productId : Int) (size : String)
    (hk : x.id = productId ∧ x.size = size) :
    S.filter (fun item => decide (item.id = productId ∧ item.size = size)) = [x] := by
  induction S with
  | nil => exact absurd hx (List.not_mem_nil x)
  | cons y rest ih =>
    have hp := List.pairwise_cons.mp hS
    rcases List.mem_cons.mp hx with rfl | hmem
    · have hd : decide (x.id = productId ∧ x.size = size) = true := decide_eq_true hk
      rw [List.filter_cons, if_pos hd]
      have hrest : rest.filter (fun item => decide (item.id = productId ∧ item.size = size))
          = [] := by
        rw [List.filter_eq_nil_iff]
        intro z hz hzk
        rw [decide_eq_true_iff] at hzk
        exact hp.1 z hz ⟨hk.1.trans hzk.1.symm, hk.2.trans hzk.2.symm⟩
      rw [hrest]
    · have hy : ¬ (decide (y.id = productId ∧ y.size = size) = true) := by
        rw [decide_eq_true_iff]
        intro hyk
        exact hp.1 x hmem ⟨hyk.1.trans hk.1.symm, hyk.2.trans hk.2.symm⟩
      rw [List.filter_cons, if_neg hy]
      exact ih hp.2 hmem

/-- The count after an add that appends. -/
theorem cartCount_append_new (p : Product) (S : CartState) :
    cartCount (S ++ [newLineItem p]) = cartCount S + 1 := by
  rw [cartCount_eq_sum, cartCount_eq_sum, List.map_append, List.sum_append]
  simp [newLineItem]

/-- C15, the claim as stated, fails on the cart of five Thermal Gloves at
`79.99`, a cart with unique keys that five adds build: after one more add
`cartTotal` is the double `479.93999999999994`, which is not the old total
`399.95` plus the stored price, neither exactly nor as the double sum
`479.94`.  The parenthetical fails on the cart that holds the jacket alone:
no item has the key of the gloves and `cartCount` grows by 1, not by 0. -/
theorem addToCart_count_counterexample :
    UniqueKeys [{ newLineItem glovesM with quantity := 5 }] ∧
    addToCart glovesM [{ newLineItem glovesM with quantity := 5 }]
      = [{ newLineItem glovesM with quantity := 6 }] ∧
    cartTotal (addToCart glovesM [{ newLineItem glovesM with quantity := 5 }])
      = 4221596885078507 / 8796093022208 ∧
    cartTotal [{ newLineItem glovesM with quantity := 5 }] + glovesM.price
      = 33772775080628059 / 70368744177664 ∧
    cartTotal (addToCart glovesM [{ newLineItem glovesM with quantity := 5 }])
      ≠ cartTotal [{ newLineItem glovesM with quantity := 5 }] + glovesM.price ∧
    cartTotal (addToCart glovesM [{ newLineItem glovesM with quantity := 5 }])
      ≠ 8443193770157015 / 17592186044416 ∧
    [newLineItem jacketM].countP
        (fun item => decide (item.id = glovesM.id ∧ item.size = glovesM.size)) = 0 ∧
    cartCount (addToCart glovesM [newLineItem jacketM])
      = cartCount [newLineItem jacketM] + 1 := by
  have hp : glovesM.price = 5628795846771343 / 70368744177664 := rfl
  have hadd : addToCart glovesM [{ newLineItem glovesM with quantity := 5 }]
      = [{ newLineItem glovesM with quantity := 6 }] := rfl
  refine ⟨by decide, hadd, ?_, ?_, ?_, ?_, by decide, by decide⟩
  · rw [hadd, cartTotal_gloves.2.2]
  · rw [cartTotal_gloves.2.1, hp]
    norm_num
  · rw [hadd, cartTotal_gloves.2.2, cartTotal_gloves.2.1, hp]
    norm_num
  · rw [hadd, cartTotal_gloves.2.2]
    norm_num

/-- C15, amended: on a cart with unique `(id, size)` keys `addToCart p` raises
`cartCount` by 1.  `cartTotal` of the new cart is the double fold over the new
list: when no item has the key of `p` it is the double sum of the old total
and the price of `p`; when an item has the key it is the old total plus the
price stored on that item whenever no product and no partial sum of the two
folds is rounded.  On any cart, unique keys or not, `cartCount` grows by the
number of items with the key of `p` when there is at least one, and by 1 when
there is none. -/
theorem addToCart_count_total (S : CartState) (p : Product) (hS : UniqueKeys S) :
    cartCount (addToCart p S) = cartCount S + 1 ∧
    ((∀ x ∈ S, ¬ (x.id = p.id ∧ x.size = p.size)) → binary64 p.price = p.price →
      cartTotal (addToCart p S) = binary64 (cartTotal S + p.price)) ∧
    (∀ x ∈ S, x.id = p.id ∧ x.size = p.size →
      ExactTotal 0 S → ExactTotal 0 (addToCart p S) →
      cartTotal (addToCart p S) = cartTotal S + x.price) ∧
    (∀ T : CartState, (∃ x ∈ T, x.id = p.id ∧ x.size = p.size) →
      cartCount (addToCart p T)
        = cartCount T
          + ((T.countP (fun item => decide (item.id = p.id ∧ item.size = p.size)) : Nat)
              : Int)) ∧
    (∀ T : CartState, (∀ x ∈ T, ¬ (x.id = p.id ∧ x.size = p.size)) →
      cartCount (addToCart p T) = cartCount T + 1) := by
  have hgen : ∀ T : CartState, (∃ x ∈ T, x.id = p.id ∧ x.size = p.size) →
      cartCount (addToCart p T)
        = cartCount T
          + ((T.countP (fun item => decide (item.id = p.id ∧ item.size = p.size)) : Nat)
              : Int) := by
    intro T hT
    rw [addToCart_of_present hT, cartCount_eq_sum, cartCount_eq_sum, sum_quantity_map_bump]
  have habs : ∀ T : CartState, (∀ x ∈ T, ¬ (x.id = p.id ∧ x.size = p.size)) →
      cartCount (addToCart p T) = cartCount T + 1 := by
    intro T hT
    rw [addToCart_of_absent hT, cartCount_append_new]
  refine ⟨?_, ?_, ?_, hgen, habs⟩
  · by_cases h : ∃ x ∈ S, x.id = p.id ∧ x.size = p.size
    · obtain ⟨x, hx, hk⟩ := h
      rw [hgen S ⟨x, hx, hk⟩, List.countP_eq_length_filter, hS.filter_key hx p.id p.size hk]
      rfl
    · exact habs S (fun x hx hk => h ⟨x, hx, hk⟩)
  · intro h hdouble
    rw [addToCart_of_absent h, cartTotal_append_singleton]
    have e : (newLineItem p).price * (((newLineItem p).quantity : ℤ) : ℚ) = p.price := by
      simp [newLineItem]
    rw [e, hdouble]
  · intro x hx hk hE hE2
    rw [cartTotal_eq_sum_of_exact _ hE2, cartTotal_eq_sum_of_exact _ hE,
      addToCart_of_present ⟨x, hx, hk⟩, sum_price_map_bump,
      hS.filter_key hx p.id p.size hk]
    simp

/-- C15 amended, on the cart that holds a jacket in M at 300 and two gloves at
80, and the add of a jacket in M offered at 1: the count grows by 1 and the
total by 300, the price stored on the jacket in the cart. -/
theorem addToCart_count_total_witness :
    UniqueKeys [newLineItem { jacketM with price := 300 },
      { newLineItem { glovesM with price := 80 } with quantity := 2 }] ∧
    cartCount (addToCart { jacketM with price := 1 }
        [newLineItem { jacketM with price := 300 },
         { newLineItem { glovesM with price := 80 } with quantity := 2 }])
      = cartCount [newLineItem { jacketM with price := 300 },
          { newLineItem { glovesM with price := 80 } with quantity := 2 }] + 1 ∧
    cartTotal (addToCart { jacketM with price := 1 }
        [newLineItem { jacketM with price := 300 },
         { newLineItem { glovesM with price := 80 } with quantity := 2 }])
      = cartTotal [newLineItem { jacketM with price := 300 },
          { newLineItem { glovesM with price := 80 } with quantity := 2 }] + 300 :=
  ⟨by decide,
   (addToCart_count_total [newLineItem { jacketM with price := 300 },
      { newLineItem { glovesM with price := 80 } with quantity := 2 }]
      { jacketM with price := 1 } (by decide)).1,
   (addToCart_count_total [newLineItem { jacketM with price := 300 },
      { newLineItem { glovesM with price := 80 } with quantity := 2 }]
      { jacketM with price := 1 } (by decide)).2.2.1
      (newLineItem { jacketM with price := 300 }) (List.mem_cons_self _ _) ⟨rfl, rfl⟩
      (exactTotal_zero_of_int _
        (by
          intro x hx
          simp only [List.mem_cons, List.mem_singleton, List.not_mem_nil, or_false] at hx
          rcases hx with rfl | rfl
          · exact ⟨300, by norm_num [newLineItem]⟩
          · exact ⟨80, by norm_num [newLineItem]⟩)
        (by norm_num [newLineItem]))
      (exactTotal_zero_of_int _
        (by
          intro x hx
          have e : addToCart { jacketM with price := 1 }
              [newLineItem { jacketM with price := 300 },
               { newLineItem { glovesM with price := 80 } with quantity := 2 }]
              = [{ newLineItem { jacketM with price := 300 } with quantity := 2 },
                 { newLineItem { glovesM with price := 80 } with quantity := 2 }] := rfl
          rw [e] at hx
          simp only [List.mem_cons, List.mem_singleton, List.not_mem_nil, or_false] at hx
          rcases hx with rfl | rfl
          · exact ⟨300, by norm_num [newLineItem]⟩
          · exact ⟨80, by norm_num [newLineItem]⟩)
        (by
          have e : addToCart { jacketM with price := 1 }
              [newLineItem { jacketM with price := 300 },
               { newLineItem { glovesM with price := 80 } with quantity := 2 }]
              = [{ newLineItem { jacketM with price := 300 } with quantity := 2 },
                 { newLineItem { glovesM with price := 80 } with quantity := 2 }] := rfl
          rw [e]
          norm_num [newLineItem]))⟩

end CartStore
